import Mathlib

/-!
Shallow embedding of the atomcam-meteor-detector core in Lean 4.

The embedding follows the Python sources:
  * `atomcam_meteor/services/db.py`      — clip / detection / night-output store
  * `atomcam_meteor/modules/extractor.py`— time-range computation and merging
  * `atomcam_meteor/modules/detector.py` — grouped frame-differencing detector
  * `atomcam_meteor/pipeline.py`         — pipeline orchestrator

External collaborators (system clock, calendar arithmetic, the camera HTTP
downloader, OpenCV decode/image primitives, ffmpeg, the filesystem) are
modelled as oracle functions gathered in environment records; every piece of
repository-level logic is translated directly.  SQL timestamps
(`datetime('now')`) are modelled by an abstract clock value `now : Nat`
supplied by the environment.
-/

/-! ## Basic value model -/

/-- A SQLite cell value as used by the dynamic columns of the clips table. -/
inductive DBValue
  | null
  | str (s : String)
  | int (n : Int)
deriving DecidableEq, Repr

/-- Python truthiness of a value read back from the store
(`None`, `""`, and `0` are falsy). -/
def DBValue.truthy : DBValue → Bool
  | .null => false
  | .str s => !(s == "")
  | .int n => !(n == 0)

/-- Reading a stored value as a string (used where the Python code wraps a
column value in `Path(...)` / `str(...)` after a truthiness check). -/
def DBValue.asStr : DBValue → String
  | .null => ""
  | .str s => s
  | .int n => toString n

/-- `str(x) if x else None` on an optional path (pipeline.py). -/
def optStrVal : Option String → DBValue
  | none => .null
  | some s => .str s

/-- Python's `int()` applied to a float/rational: truncation toward zero. -/
def pythonInt (q : ℚ) : Int := if 0 ≤ q then ⌊q⌋ else ⌈q⌉

/-! ## services/db.py -/

/-- `ClipStatus` enum (db.py). -/
inductive ClipStatus
  | pending
  | downloaded
  | detected
  | no_detection
  | error
deriving DecidableEq, Repr

/-- The terminal statuses, i.e. `status IN ('detected', 'no_detection', 'error')`
as tested by the `upsert_clip` SQL and by the pipeline's idempotence guard. -/
def ClipStatus.isTerminal : ClipStatus → Bool
  | .detected => true
  | .no_detection => true
  | .error => true
  | _ => false

/-- One row of the `clips` table. -/
structure ClipRow where
  id : Nat
  clip_url : String
  date_str : String
  hour : Nat
  minute : Nat
  local_path : Option String
  status : ClipStatus
  detection_image : DBValue
  detected_video : DBValue
  line_count : DBValue
  excluded : Bool
  error_message : DBValue
  created_at : Nat
  updated_at : Nat
deriving DecidableEq, Repr

/-- One row of the `detections` table (the surrogate `id` column is not
modelled; rows are addressed by their `UNIQUE(clip_id, line_index)` key). -/
structure DetRow where
  clip_id : Nat
  line_index : Nat
  x1 : Int
  y1 : Int
  x2 : Int
  y2 : Int
  crop_image : Option String
  excluded : Bool
deriving DecidableEq, Repr

/-- One row of the `night_outputs` table. -/
structure NightRow where
  date_str : String
  composite_image : Option String
  concat_video : Option String
  detection_count : Int
  hidden : Bool
  last_updated_at : Nat
deriving DecidableEq, Repr

/-- The relational store (`StateDB`): the three tables relevant to the core,
plus the AUTOINCREMENT counter for `clips.id`. -/
structure DBState where
  clips : List ClipRow
  nextClipId : Nat
  detections : List DetRow
  nights : List NightRow
deriving DecidableEq, Repr

/-- `SELECT * FROM clips WHERE clip_url = ?` (first row of the unique key). -/
def getClip (db : DBState) (url : String) : Option ClipRow :=
  db.clips.find? (fun r => r.clip_url == url)

/-- Arguments of `ClipRepository.upsert_clip`. -/
structure UpsertArgs where
  clip_url : String
  date_str : String
  hour : Nat
  minute : Nat
  local_path : Option String := none
  status : ClipStatus := .pending
deriving DecidableEq, Repr

/-- The `ON CONFLICT(clip_url) DO UPDATE` row transformer of `upsert_clip`:
`local_path = COALESCE(excluded.local_path, clips.local_path)` and
`status` is preserved when the current status is terminal. -/
def upsertConflictUpdate (a : UpsertArgs) (now : Nat) (r : ClipRow) : ClipRow :=
  { r with
    local_path := match a.local_path with
      | some p => some p
      | none => r.local_path
    status := if r.status.isTerminal then r.status else a.status
    updated_at := now }

/-- `ClipRepository.upsert_clip` (db.py lines 128-151): insert a fresh row, or
apply the conflict update to the existing row with the same `clip_url`. -/
def upsertClip (db : DBState) (a : UpsertArgs) (now : Nat) : DBState :=
  if (getClip db a.clip_url).isSome then
    { db with clips := db.clips.map (fun r =>
        if r.clip_url == a.clip_url then upsertConflictUpdate a now r else r) }
  else
    { db with
      clips := db.clips ++ [{
        id := db.nextClipId
        clip_url := a.clip_url
        date_str := a.date_str
        hour := a.hour
        minute := a.minute
        local_path := a.local_path
        status := a.status
        detection_image := .null
        detected_video := .null
        line_count := .int 0
        excluded := false
        error_message := .null
        created_at := now
        updated_at := now }]
      nextClipId := db.nextClipId + 1 }

/-- The keyword arguments accepted by `update_clip_status`
(`allowed = {"detection_image", "detected_video", "line_count", "error_message"}`). -/
def updateAllowedKeys : List String :=
  ["detection_image", "detected_video", "line_count", "error_message"]

/-- Application of one allowed keyword argument to a clip row
(the `f"{col} = ?"` SET clause). -/
def applyKwarg (r : ClipRow) (kv : String × DBValue) : ClipRow :=
  if kv.1 = "detection_image" then { r with detection_image := kv.2 }
  else if kv.1 = "detected_video" then { r with detected_video := kv.2 }
  else if kv.1 = "line_count" then { r with line_count := kv.2 }
  else if kv.1 = "error_message" then { r with error_message := kv.2 }
  else r

/-- The row transformer of `update_clip_status`: set `status` and
`updated_at`, then the allowed keyword columns (others are filtered out). -/
def rowStatusUpdate (status : ClipStatus) (kwargs : List (String × DBValue))
    (now : Nat) (r : ClipRow) : ClipRow :=
  (kwargs.filter (fun kv => updateAllowedKeys.contains kv.1)).foldl applyKwarg
    { r with status := status, updated_at := now }

/-- `ClipRepository.update_clip_status` (db.py lines 165-177):
`UPDATE clips SET status = ?, updated_at = ?, <allowed kwargs> WHERE clip_url = ?`. -/
def updateClipStatus (db : DBState) (url : String) (status : ClipStatus)
    (kwargs : List (String × DBValue)) (now : Nat) : DBState :=
  { db with clips := db.clips.map (fun r =>
      if r.clip_url == url then rowStatusUpdate status kwargs now r else r) }

/-- `SELECT * FROM clips WHERE date_str = ? AND status = 'detected'`.
The `ORDER BY hour, minute` clause is dropped: every use in the claims under
study depends only on the number of rows returned. -/
def getDetectedClips (db : DBState) (date : String) : List ClipRow :=
  db.clips.filter (fun r => r.date_str == date && r.status == ClipStatus.detected)

/-- `get_included_detected_clips`: detected rows with `excluded = 0`. -/
def getIncludedDetectedClips (db : DBState) (date : String) : List ClipRow :=
  db.clips.filter (fun r =>
    r.date_str == date && r.status == ClipStatus.detected && !r.excluded)

/-- `SELECT * FROM detections WHERE clip_id = ?` (order irrelevant here). -/
def getDetectionsByClip (db : DBState) (clipId : Nat) : List DetRow :=
  db.detections.filter (fun r => r.clip_id == clipId)

/-- `ON CONFLICT(clip_id, line_index) DO UPDATE` upsert of one detection row
(the stored `excluded` flag survives a conflict update). -/
def upsertDetection (dets : List DetRow) (d : DetRow) : List DetRow :=
  if (dets.find? (fun r => r.clip_id == d.clip_id && r.line_index == d.line_index)).isSome then
    dets.map (fun r =>
      if r.clip_id == d.clip_id && r.line_index == d.line_index then
        { r with x1 := d.x1, y1 := d.y1, x2 := d.x2, y2 := d.y2,
                 crop_image := d.crop_image }
      else r)
  else dets ++ [d]

/-- `DetectionRepository.bulk_insert`: upsert one row per `(line, crop)` pair,
`line_index` enumerating the zipped list. -/
def bulkInsertDetections (db : DBState) (clipId : Nat)
    (lines : List (Int × Int × Int × Int)) (crops : List String) : DBState :=
  let step := fun (acc : List DetRow) (p : Nat × ((Int × Int × Int × Int) × String)) =>
    upsertDetection acc {
      clip_id := clipId
      line_index := p.1
      x1 := p.2.1.1
      y1 := p.2.1.2.1
      x2 := p.2.1.2.2.1
      y2 := p.2.1.2.2.2
      crop_image := some p.2.2
      excluded := false }
  { db with detections := ((lines.zip crops).enum).foldl step db.detections }

/-- `SELECT * FROM night_outputs WHERE date_str = ?`. -/
def getOutput (db : DBState) (date : String) : Option NightRow :=
  db.nights.find? (fun r => r.date_str == date)

/-- `NightOutputRepository.upsert_output`: `INSERT OR REPLACE` of the listed
columns; the `hidden` column is not in the column list, so a replaced row
falls back to its default `0`. -/
def upsertOutput (db : DBState) (date : String)
    (composite concat : Option String) (count : Int) (now : Nat) : DBState :=
  { db with nights :=
      (db.nights.filter (fun r => !(r.date_str == date))) ++
      [{ date_str := date
         composite_image := composite
         concat_video := concat
         detection_count := count
         hidden := false
         last_updated_at := now }] }

/-! ### `get_detected_video_paths` and its JSON handling

`json.dumps` of a list of path strings, and the tolerant `json.loads`-based
reader with its legacy single-string fallback.  The encoder escapes the two
characters that can require escaping in the path strings this program
produces; the decoder accepts exactly the common JSON string escapes (the
stored values are always this program's own `json.dumps` output). -/

/-- Escape one character the way `json.dumps` escapes path strings. -/
def jsonEscapeChar (c : Char) : List Char :=
  if c = '"' then ['\\', '"']
  else if c = '\\' then ['\\', '\\']
  else [c]

/-- `json.dumps` of a list of strings (default `", "` separator). -/
def jsonDumpStrList (ps : List String) : String :=
  "[" ++ String.intercalate ", "
    (ps.map (fun p => "\"" ++ String.mk (p.toList.flatMap jsonEscapeChar) ++ "\"")) ++ "]"

/-- Unescape map for the JSON string escapes accepted by the decoder. -/
def jsonUnescape (c : Char) : Option Char :=
  if c = '"' then some '"'
  else if c = '\\' then some '\\'
  else if c = '/' then some '/'
  else if c = 'n' then some '\n'
  else if c = 't' then some '\t'
  else if c = 'r' then some '\r'
  else none

/-- Parse a JSON string body (after the opening quote); returns the decoded
string and the remaining characters after the closing quote. -/
def parseJStr : List Char → Option (String × List Char)
  | [] => none
  | '"' :: rest => some ("", rest)
  | '\\' :: c :: rest =>
    match jsonUnescape c with
    | some e => (parseJStr rest).map (fun p => (String.mk (e :: p.1.toList), p.2))
    | none => none
  | c :: rest =>
    if c = '\\' then none
    else (parseJStr rest).map (fun p => (String.mk (c :: p.1.toList), p.2))

/-- Skip JSON whitespace. -/
def skipWs : List Char → List Char
  | c :: rest =>
    if c = ' ' || c = '\t' || c = '\n' || c = '\r' then skipWs rest else c :: rest
  | [] => []

/-- Parse the comma-separated string items of a JSON array (fuelled). -/
def parseItemsAux : Nat → List Char → Option (List String × List Char)
  | 0, _ => none
  | fuel + 1, cs =>
    match skipWs cs with
    | '"' :: rest =>
      match parseJStr rest with
      | none => none
      | some (s, rest2) =>
        match skipWs rest2 with
        | ',' :: rest3 =>
          match parseItemsAux fuel rest3 with
          | some (ss, r) => some (s :: ss, r)
          | none => none
        | ']' :: rest3 => some ([s], rest3)
        | _ => none
    | _ => none

/-- `json.loads` restricted to arrays of strings; `none` on anything else
(which sends `get_detected_video_paths` to its legacy fallback). -/
def jsonParseStrList (s : String) : Option (List String) :=
  match skipWs s.toList with
  | '[' :: rest =>
    match skipWs rest with
    | ']' :: rest2 => if skipWs rest2 = [] then some [] else none
    | _ =>
      match parseItemsAux (rest.length + 1) rest with
      | some (ss, r) => if skipWs r = [] then some ss else none
      | none => none
  | _ => none

/-- `ClipRepository.get_detected_video_paths`: empty for a falsy value, the
parsed list for a JSON array, and the legacy single-path fallback otherwise. -/
def getDetectedVideoPaths (v : DBValue) : List String :=
  if !v.truthy then []
  else
    match v with
    | .str s =>
      match jsonParseStrList s with
      | some ps => ps
      | none => [s]
    | .int n => [toString n]
    | .null => []

/-! ## modules/extractor.py -/

/-- `TimeRange` dataclass. -/
structure TimeRange where
  start_sec : ℚ
  end_sec : ℚ
deriving DecidableEq, Repr

/-- The single-pass merge loop of `compute_time_ranges`: `cur` is the
running `merged[-1]`; an interval whose start is `≤` the current end extends
it (`max`), otherwise the current interval is emitted and the walk restarts
from the new one. -/
def mergeRaw : ℚ × ℚ → List (ℚ × ℚ) → List (ℚ × ℚ)
  | cur, [] => [cur]
  | cur, (s, e) :: rest =>
    if s ≤ cur.2 then mergeRaw (cur.1, max cur.2 e) rest
    else cur :: mergeRaw (s, e) rest

/-- `ClipExtractor.compute_time_ranges` (extractor.py lines 33-67).  The `fps`
argument is accepted and, as in the source, unused. -/
def computeTimeRanges (exposure margin : ℚ) (detection_groups : List Nat)
    (fps : ℚ) (video_duration_sec : ℚ) : List TimeRange :=
  if detection_groups = [] then []
  else
    let raw := (List.insertionSort (· ≤ ·) detection_groups).map (fun idx =>
      (max 0 ((idx : ℚ) * exposure - margin),
       min video_duration_sec (((idx : ℚ) + 1) * exposure + margin)))
    match raw with
    | [] => []
    | r0 :: rest => (mergeRaw r0 rest).map (fun p => ⟨p.1, p.2⟩)

/-! ## modules/detector.py

Frames are modelled as flattened pixel lists (`List Nat`); `cv2.max` is the
pixel-wise maximum and `cv2.subtract` the `uint8`-saturating subtraction
(clamped at zero, which on `Nat` is truncated subtraction).  Grayscale
conversion and the masked blur/Canny/Hough line search of `_find_lines` are
external OpenCV image primitives and are supplied as oracles. -/

/-- A decoded color frame (flattened pixel data). -/
abbrev ColorFrame := List Nat

/-- A grayscale frame (flattened 8-bit intensities). -/
abbrev GrayFrame := List Nat

/-- A line as returned by the Hough transform: `(x1, y1, x2, y2)`. -/
abbrev HLine := Int × Int × Int × Int

/-- `cv2.max`: pixel-wise maximum. -/
def cv2Max (a b : List Nat) : List Nat := a.zipWith max b

/-- `cv2.subtract` on `uint8` data: saturating subtraction, clamped at 0. -/
def cv2Subtract (a b : List Nat) : List Nat := a.zipWith (fun x y => x - y) b

/-- The consecutive pairs `(g[i], g[i+1])` of a list, in order. -/
def consecPairs : List GrayFrame → List (GrayFrame × GrayFrame)
  | a :: b :: rest => (a, b) :: consecPairs (b :: rest)
  | _ => []

/-- The per-group diff composite loop of `_detect_impl` (detector.py lines
191-197): for each `i`, `diff = cv2.subtract(group_gray[i+1], group_gray[i])`,
accumulated with `cv2.max`; `none` when the group has fewer than two frames. -/
def diffComposite (group_gray : List GrayFrame) : Option GrayFrame :=
  (consecPairs group_gray).foldl
    (fun acc p =>
      let diff := cv2Subtract p.2 p.1
      match acc with
      | none => some diff
      | some c => some (cv2Max c diff))
    none

/-- The same loop as the specification describes it, with the pixel-wise
**absolute** difference `|f_{i+1} - f_i|` in place of `cv2.subtract`
(spec §4.1 step 3 and the glossary entry for "Diff composite"). -/
def specAbsDiffComposite (group_gray : List GrayFrame) : Option GrayFrame :=
  (consecPairs group_gray).foldl
    (fun acc p =>
      let diff := p.2.zipWith (fun x y => max x y - min x y) p.1
      match acc with
      | none => some diff
      | some c => some (cv2Max c diff))
    none

/-- The FPS defaulting of `_detect_impl`: `if fps <= 0: fps = 15.0`. -/
def defaultFps (fps : ℚ) : ℚ := if fps ≤ 0 then 15 else fps

/-- The group size computation of `_detect_impl` (detector.py lines 153-155):
`frames_per_group = int(fps * exposure_duration_sec)`, raised to at least 2. -/
def framesPerGroupOf (fps exposure : ℚ) : Int :=
  let n := pythonInt (fps * exposure)
  if n < 2 then 2 else n

/-- The group size formula as the specification states it (§4.1 step 2):
`max(2, round(frameRate × exposureDurationSeconds))`. -/
def specFramesPerGroup (fps exposure : ℚ) : Int :=
  max 2 (round (fps * exposure))

/-- The frame-reading loop: take up to `n` frames per group; a read that
yields fewer than two frames ends the stream (`if len(group_gray) < 2: break`). -/
def readGroups (n : Nat) (fs : List ColorFrame) : List (List ColorFrame) :=
  if (fs.take n).length < 2 then []
  else fs.take n :: readGroups n (fs.drop n)
termination_by fs.length
decreasing_by
  rename_i h
  simp only [List.length_take, lt_min_iff, not_lt] at h
  simp only [List.length_drop]
  omega

/-- External image primitives used by the detector. -/
structure DetectorEnv where
  /-- `cv2.cvtColor(frame, cv2.COLOR_BGR2GRAY)`. -/
  toGray : ColorFrame → GrayFrame
  /-- `MeteorDetector._find_lines` applied to a diff composite: the masked
  blur/Canny/probabilistic-Hough search with the brightness filter.  Its body
  is built entirely from external OpenCV operations, so it enters the model
  as an oracle. -/
  findLines : GrayFrame → List HLine

/-- `DetectionResult` dataclass. -/
structure DetectionResultM where
  detected : Bool
  line_count : Nat
  image_path : Option String
  lines : List HLine
  detection_groups : List Nat := []
  fps : ℚ := 0
  crop_paths : List String := []
deriving DecidableEq, Repr

/-- The state accumulated by the frame-group loop of `_detect_impl`. -/
structure GroupAcc where
  color_composite : Option ColorFrame := none
  detection_groups : List Nat := []
  group_color_comps : List (Nat × ColorFrame) := []
  group_lines : List (Nat × List HLine) := []
deriving Repr

/-- `group_color_comp`: fold of `cv2.max` over the group's color frames. -/
def groupColorComp (grp : List ColorFrame) : Option ColorFrame :=
  grp.foldl
    (fun acc f =>
      match acc with
      | none => some f
      | some c => some (cv2Max c f))
    none

/-- The body of the per-group loop of `_detect_impl`: line detection on the
diff composite (recording the group on success) and accumulation of the
whole-clip color composite. -/
def detectGroupStep (env : DetectorEnv) (acc : GroupAcc)
    (p : Nat × List ColorFrame) : GroupAcc :=
  let gi := p.1
  let grp := p.2
  let grayG := grp.map env.toGray
  let colorComp := groupColorComp grp
  let acc :=
    match diffComposite grayG with
    | none => acc
    | some d =>
      let found := env.findLines d
      match colorComp, found with
      | some cc, _ :: _ =>
        { acc with
          detection_groups := acc.detection_groups ++ [gi]
          group_color_comps := acc.group_color_comps ++ [(gi, cc)]
          group_lines := acc.group_lines ++ [(gi, found)] }
      | _, _ => acc
  match colorComp with
  | none => acc
  | some cc =>
    match acc.color_composite with
    | none => { acc with color_composite := some cc }
    | some c => { acc with color_composite := some (cv2Max c cc) }

/-- The `videoSource` as seen through `cv2.VideoCapture`: whether it opened,
its reported FPS, and the decodable frames in order. -/
structure CapModel where
  opened : Bool
  fps : ℚ
  frames : List ColorFrame

/-- `MeteorDetector._detect_impl` (detector.py lines 139-260).  Output image
paths follow the source's naming (`{stem}_detect.png`, `{stem}_group{gi}.png`
under the output directory). -/
def detectImpl (env : DetectorEnv) (exposure : ℚ) (cap : CapModel)
    (clipStem outputDir : String) : DetectionResultM :=
  if !cap.opened then
    { detected := false, line_count := 0, image_path := none, lines := [] }
  else
    let fps := defaultFps cap.fps
    let n := (framesPerGroupOf fps exposure).toNat
    let groups := readGroups n cap.frames
    let acc := groups.enum.foldl (detectGroupStep env) {}
    if groups = [] then
      { detected := false, line_count := 0, image_path := none, lines := [],
        fps := fps }
    else if acc.detection_groups = [] then
      { detected := false, line_count := 0, image_path := none, lines := [],
        detection_groups := [], fps := fps }
    else
      let all_lines := acc.detection_groups.flatMap
        (fun gi => (acc.group_lines.lookup gi).getD [])
      let image_path := outputDir ++ "/" ++ clipStem ++ "_detect.png"
      let crop_paths := acc.detection_groups.map
        (fun gi => outputDir ++ "/" ++ clipStem ++ "_group" ++ toString gi ++ ".png")
      { detected := true
        line_count := all_lines.length
        image_path := some image_path
        lines := all_lines
        detection_groups := acc.detection_groups
        fps := fps
        crop_paths := crop_paths }

/-! ## pipeline.py -/

/-- `ScheduleConfig` after its validated `"HH:MM"` strings are split
(`start_h, start_m = (int(x) for x in start_time.split(":"))`). -/
structure ScheduleCfg where
  startH : Nat
  startM : Nat
  endH : Nat
  endM : Nat
deriving DecidableEq, Repr

/-- The configuration slice the orchestrator reads. -/
structure PipelineCfg where
  schedule : ScheduleCfg
  downloadDir : String
  outputDir : String
  cameraHost : String
  cameraBasePath : String
  /-- `detection.exposure_duration_sec` (used by `ClipExtractor`). -/
  exposure : ℚ
  /-- `detection.clip_margin_sec` (used by `ClipExtractor`). -/
  margin : ℚ
deriving DecidableEq, Repr

/-- `Pipeline._clip_in_range`: whether `(hour, minute)` falls inside the
configured start/end window, wrapping across midnight when `start >= end`. -/
def clipInRange (sc : ScheduleCfg) (hour minute : Nat) : Bool :=
  let clip := hour * 60 + minute
  let startTotal := sc.startH * 60 + sc.startM
  let endTotal := sc.endH * 60 + sc.endM
  if startTotal ≥ endTotal then
    decide (clip ≥ startTotal) || decide (clip < endTotal)
  else
    decide (startTotal ≤ clip) && decide (clip < endTotal)

/-- `Pipeline._build_time_slots`: the `(directory_date, hour)` pairs of an
observation night, splitting across midnight when the window wraps.
Calendar arithmetic (`target - timedelta(days=1)`) enters as `prevDay`. -/
def buildTimeSlots (sc : ScheduleCfg) (prevDay : String → String)
    (date : String) : List (String × Nat) :=
  let startTotal := sc.startH * 60 + sc.startM
  let endTotal := sc.endH * 60 + sc.endM
  let endHIncl := if sc.endM > 0 then sc.endH + 1 else sc.endH
  if startTotal ≥ endTotal then
    ((List.range (24 - sc.startH)).map (fun i => (prevDay date, sc.startH + i))) ++
    ((List.range endHIncl).map (fun h => (date, h)))
  else
    (List.range (endHIncl - sc.startH)).map (fun i => (date, sc.startH + i))

/-- `Pipeline._filter_available_slots`: keep past-or-current slots; the
wall-clock comparison `slot_dt <= now` enters as the `isPast` oracle. -/
def filterAvailableSlots (isPast : String → Nat → Bool)
    (slots : List (String × Nat)) : List (String × Nat) :=
  slots.filter (fun s => isPast s.1 s.2)

/-- One entry of `Downloader.download_hour`'s result: the clip URL, the local
file path, and `int(local_path.stem)` (the minute). -/
structure DLItem where
  url : String
  path : String
  minute : Nat
deriving DecidableEq, Repr

/-- A local MP4 found by the redetect directory scan: directory date, hour,
file stem, and `int(stem)`. -/
structure RFile where
  dirDate : String
  hour : Nat
  stem : String
  minute : Nat
deriving DecidableEq, Repr

/-- Lifecycle events emitted through `HookRunner` (hook delivery itself is
external and never propagates back). -/
inductive PipeEvent
  | detection (date : String) (hour minute : Nat) (lineCount : Nat)
      (imagePath clipPath : String)
  | nightComplete (date : String) (count : Nat) (composite : Option String)
      (video : Option String)
  | errorEv (stage : String) (msg : String)
deriving DecidableEq, Repr

/-- The external collaborators of the orchestrator. -/
structure PipeEnv where
  /-- the SQL clock `datetime('now')`. -/
  now : Nat
  /-- `slot_dt <= datetime.now()` for a slot. -/
  isPast : String → Nat → Bool
  /-- `(date - timedelta(days=1)).strftime("%Y%m%d")`. -/
  prevDay : String → String
  /-- `Downloader.download_hour(date, hour, dir)`; `.error` models a raised
  `AtomcamError`. -/
  downloadHour : String → Nat → Except String (List DLItem)
  /-- `MeteorDetector.detect(local_path, output_dir)`; `.error` models a
  raised `DetectionError`. -/
  detect : String → Except String DetectionResultM
  /-- `ClipExtractor.extract(source, ranges, dir)` (ffmpeg). -/
  extractClips : String → List TimeRange → String → Except String (List String)
  /-- `Compositor.composite(images, out, existing_composite)`. -/
  compositeImages : List String → String → Option String → Except String Unit
  /-- `Concatenator.concatenate(paths, out)`. -/
  concatVideos : List String → String → Except String Unit
  /-- `Path.exists()`. -/
  fileExists : String → Bool
  /-- `cv2.imread` (`none` models a failed load). -/
  imread : String → Option ColorFrame
  /-- `Compositor.mask_lines` (external image-slicing primitive). -/
  maskLines : ColorFrame → List HLine → ColorFrame
  /-- the minute-stem files found by `sorted(hour_dir.glob("*.mp4"))`
  (empty when the hour directory does not exist). -/
  hourFiles : String → Nat → List (String × Nat)

/-- `output_root / date` (the per-night output directory). -/
def nightOutputDir (cfg : PipelineCfg) (date : String) : String :=
  cfg.outputDir ++ "/" ++ date

/-- `output_dir / f"{date_str}_composite.jpg"`. -/
def compositeOutPath (cfg : PipelineCfg) (date : String) : String :=
  nightOutputDir cfg date ++ "/" ++ date ++ "_composite.jpg"

/-- `output_dir / f"{date_str}_meteors.mp4"`. -/
def meteorsOutPath (cfg : PipelineCfg) (date : String) : String :=
  nightOutputDir cfg date ++ "/" ++ date ++ "_meteors.mp4"

/-- `Pipeline._extract_short_clips`: compute the merged time ranges, run the
external extraction, and JSON-encode the resulting path list; any
`AtomcamError` (or an empty range list) falls back to the original clip path. -/
def extractShortClips (env : PipeEnv) (cfg : PipelineCfg) (localPath : String)
    (r : DetectionResultM) (outputDir : String) : String :=
  let ranges := computeTimeRanges cfg.exposure cfg.margin r.detection_groups r.fps 60
  if ranges = [] then jsonDumpStrList [localPath]
  else
    match env.extractClips localPath ranges outputDir with
    | .ok ps => jsonDumpStrList ps
    | .error _ => jsonDumpStrList [localPath]

/-- `str(int)` left-padded to two digits (`f"{n:02d}"` for `n ≤ 99`). -/
def pad2 (n : Nat) : String :=
  (if n < 10 then "0" else "") ++ toString n

/-- `Pipeline._save_detections`: one detection row per detection group, with
degenerate `(0,0,0,0)` line endpoints and the per-group composite paths
(padded with `""` when shorter than the group list). -/
def saveDetections (db : DBState) (clipUrl : String)
    (r : DetectionResultM) : DBState :=
  if r.detection_groups = [] then db
  else
    match getClip db clipUrl with
    | none => db
    | some clip =>
      let lines := r.detection_groups.map
        (fun _ => ((0 : Int), (0 : Int), (0 : Int), (0 : Int)))
      let crops := r.crop_paths ++
        List.replicate (r.detection_groups.length - r.crop_paths.length) ""
      bulkInsertDetections db clip.id lines crops

/-- `PipelineResult` dataclass. -/
structure PipelineResultM where
  date_str : String
  clips_processed : Nat
  detections_found : Nat
  composite_path : Option String
  video_path : Option String
  dry_run : Bool := false
deriving DecidableEq, Repr

/-- The mutable state of `Pipeline.execute`'s clip loop, extended with the
observable traces (detector invocations and compositor invocations) that the
verification reasons about. -/
structure ExecSt where
  db : Option DBState
  clips_processed : Nat := 0
  detections_found : Nat := 0
  detected_images : List String := []
  new_detected_images : List String := []
  detectCalls : List (String × String) := []
  compositeCalls : List (List String × String × Option String) := []
  events : List PipeEvent := []

/-- The detection half of `execute`'s clip body: run the detector, record the
outcome in the store, and fire the matching event. -/
def execDetectPhase (env : PipeEnv) (cfg : PipelineCfg) (date outputDir : String)
    (hour : Nat) (st : ExecSt) (it : DLItem) : ExecSt :=
  let st := { st with detectCalls := st.detectCalls ++ [(it.url, it.path)] }
  match env.detect it.path with
  | .error e =>
    { st with
      db := st.db.map (fun db =>
        updateClipStatus db it.url .error [("error_message", .str e)] env.now)
      events := st.events ++ [.errorEv "detection" e] }
  | .ok r =>
    if r.detected then
      let st := { st with detections_found := st.detections_found + 1 }
      let st :=
        match r.image_path with
        | some p =>
          { st with detected_images := st.detected_images ++ [p],
                    new_detected_images := st.new_detected_images ++ [p] }
        | none => st
      let dvj := extractShortClips env cfg it.path r outputDir
      let st :=
        match st.db with
        | some db =>
          let db := updateClipStatus db it.url .detected
            [("detection_image", optStrVal r.image_path),
             ("detected_video", .str dvj),
             ("line_count", .int r.line_count)] env.now
          { st with db := some (saveDetections db it.url r) }
        | none => st
      { st with events := st.events ++
          [.detection date hour it.minute r.line_count (r.image_path.getD "") it.path] }
    else
      { st with db := st.db.map (fun db =>
          updateClipStatus db it.url .no_detection [] env.now) }

/-- The body of `execute`'s per-clip loop (pipeline.py lines 100-174):
range filter, `upsert_clip` bookkeeping, the idempotence guard over terminal
statuses (re-counting stored `detected` artifacts), then detection. -/
def execClipStep (env : PipeEnv) (cfg : PipelineCfg) (date outputDir : String)
    (hour : Nat) (st : ExecSt) (it : DLItem) : ExecSt :=
  if !clipInRange cfg.schedule hour it.minute then st
  else
    let st := { st with clips_processed := st.clips_processed + 1 }
    match st.db with
    | some db =>
      let db := upsertClip db
        { clip_url := it.url, date_str := date, hour := hour,
          minute := it.minute, local_path := some it.path,
          status := .downloaded } env.now
      let st := { st with db := some db }
      match getClip db it.url with
      | some row =>
        if row.status.isTerminal then
          if row.status == ClipStatus.detected && row.detection_image.truthy then
            { st with
              detected_images := st.detected_images ++ [row.detection_image.asStr]
              detections_found := st.detections_found + 1 }
          else st
        else execDetectPhase env cfg date outputDir hour st it
      | none => execDetectPhase env cfg date outputDir hour st it
    | none => execDetectPhase env cfg date outputDir hour st it

/-- The body of `execute`'s per-slot loop: download the hour (a raised
`AtomcamError` is caught and surfaced as an error event), then process each
downloaded clip. -/
def execSlotStep (env : PipeEnv) (cfg : PipelineCfg) (date outputDir : String)
    (dryRun : Bool) (st : ExecSt) (slot : String × Nat) : ExecSt :=
  if dryRun then st
  else
    match env.downloadHour slot.1 slot.2 with
    | .error e => { st with events := st.events ++ [.errorEv "download" e] }
    | .ok items => items.foldl (execClipStep env cfg date outputDir slot.2) st

/-- The observable outcome of one orchestrator run. -/
structure ExecOut where
  result : PipelineResultM
  db : Option DBState
  compositeCalls : List (List String × String × Option String)
  detectCalls : List (String × String)
  events : List PipeEvent

/-- `Pipeline.execute(date)` (pipeline.py lines 68-240), for an explicit
date.  The slot loop feeds the clip loop; afterwards the night composite is
built incrementally from this run's new detections (seeded from the on-disk
composite when it exists), and NightOutput is upserted with the cumulative
detected-clip count and the pre-existing concatenated-video path. -/
def executeRun (env : PipeEnv) (cfg : PipelineCfg) (db0 : Option DBState)
    (date : String) (dryRun : Bool) : ExecOut :=
  let outputDir := nightOutputDir cfg date
  let slots := filterAvailableSlots env.isPast
    (buildTimeSlots cfg.schedule env.prevDay date)
  let st := slots.foldl (execSlotStep env cfg date outputDir dryRun) { db := db0 }
  if dryRun then
    { result := { date_str := date, clips_processed := 0, detections_found := 0,
                  composite_path := none, video_path := none, dry_run := true }
      db := st.db
      compositeCalls := st.compositeCalls
      detectCalls := st.detectCalls
      events := st.events }
  else
    let compOut := compositeOutPath cfg date
    let cp :=
      if st.new_detected_images = [] then
        if env.fileExists compOut then (some compOut, st) else (none, st)
      else
        let seed := if env.fileExists compOut then some compOut else none
        let st := { st with compositeCalls :=
          st.compositeCalls ++ [(st.new_detected_images, compOut, seed)] }
        match env.compositeImages st.new_detected_images compOut seed with
        | .ok _ => (some compOut, st)
        | .error e =>
          (none, { st with events := st.events ++ [.errorEv "composite" e] })
    let compositePath := cp.1
    let st := cp.2
    let st :=
      match st.db with
      | some db =>
        let cumulative := (getDetectedClips db date).length
        let existingVideo := (getOutput db date).bind (fun r => r.concat_video)
        { st with db := some (upsertOutput db date compositePath existingVideo
            (cumulative : Int) env.now) }
      | none => st
    let st := { st with events := st.events ++
        [PipeEvent.nightComplete date st.detections_found compositePath none] }
    { result := { date_str := date, clips_processed := st.clips_processed,
                  detections_found := st.detections_found,
                  composite_path := compositePath, video_path := none }
      db := st.db
      compositeCalls := st.compositeCalls
      detectCalls := st.detectCalls
      events := st.events }

/-- The `(slot, item)` pairs `execute` downloads for a date (error slots
contribute nothing), before the minute-range filter. -/
def slotItems (env : PipeEnv) (cfg : PipelineCfg) (date : String) :
    List (Nat × DLItem) :=
  (filterAvailableSlots env.isPast (buildTimeSlots cfg.schedule env.prevDay date)).flatMap
    (fun slot =>
      match env.downloadHour slot.1 slot.2 with
      | .ok items => items.map (fun it => (slot.2, it))
      | .error _ => [])

/-- The downloaded items that pass `_clip_in_range` — exactly the clips the
body of `execute`'s loop processes. -/
def processedItems (env : PipeEnv) (cfg : PipelineCfg) (date : String) :
    List (Nat × DLItem) :=
  (slotItems env cfg date).filter (fun p => clipInRange cfg.schedule p.1 p.2.minute)

/-! ### `Pipeline.redetect_from_local` -/

/-- The local path of a scanned MP4:
`download_dir / slot_date / f"{hour:02d}" / f"{stem}.mp4"`. -/
def rfileLocalPath (cfg : PipelineCfg) (f : RFile) : String :=
  cfg.downloadDir ++ "/" ++ f.dirDate ++ "/" ++ pad2 f.hour ++ "/" ++ f.stem ++ ".mp4"

/-- The reconstructed clip URL of a scanned MP4 (pipeline.py lines 286-290). -/
def rfileClipUrl (cfg : PipelineCfg) (f : RFile) : String :=
  "http://" ++ cfg.cameraHost ++ "/" ++ cfg.cameraBasePath ++ "/" ++
    f.dirDate ++ "/" ++ pad2 f.hour ++ "/" ++ f.stem ++ ".mp4"

/-- The pre-scan of `redetect_from_local` (pipeline.py lines 264-273): every
in-range local MP4 of the night's slots, in slot order.  Unlike `execute`,
future slots are **not** filtered out. -/
def redetectFiles (env : PipeEnv) (cfg : PipelineCfg) (date : String) :
    List RFile :=
  (buildTimeSlots cfg.schedule env.prevDay date).flatMap (fun slot =>
    ((env.hourFiles slot.1 slot.2).filter
        (fun sm => clipInRange cfg.schedule slot.2 sm.2)).map
      (fun sm => { dirDate := slot.1, hour := slot.2, stem := sm.1, minute := sm.2 }))

/-- The mutable state of the redetect loop, with its observable traces. -/
structure RedetectSt where
  db : Option DBState
  clips_processed : Nat := 0
  detections_found : Nat := 0
  detected_images : List String := []
  detectCalls : List String := []
  progressCalls : List (Nat × Nat) := []
  events : List PipeEvent := []

/-- The body of the redetect per-clip loop (pipeline.py lines 284-348):
upsert bookkeeping, unconditional detection (no idempotence guard), store
update, and the progress callback — which fires after **every** processed
clip, the detection-error path included. -/
def redetectClipStep (env : PipeEnv) (cfg : PipelineCfg) (date outputDir : String)
    (total : Nat) (st : RedetectSt) (f : RFile) : RedetectSt :=
  let st := { st with clips_processed := st.clips_processed + 1 }
  let path := rfileLocalPath cfg f
  let url := rfileClipUrl cfg f
  let st := { st with db := st.db.map (fun db => upsertClip db
      { clip_url := url, date_str := date, hour := f.hour, minute := f.minute,
        local_path := some path, status := .downloaded } env.now) }
  let st := { st with detectCalls := st.detectCalls ++ [path] }
  let st :=
    match env.detect path with
    | .error e =>
      { st with
        db := st.db.map (fun db =>
          updateClipStatus db url .error [("error_message", .str e)] env.now)
        events := st.events ++ [PipeEvent.errorEv "detection" e] }
    | .ok r =>
      if r.detected then
        let st := { st with detections_found := st.detections_found + 1 }
        let st :=
          match r.image_path with
          | some p => { st with detected_images := st.detected_images ++ [p] }
          | none => st
        let dvj := extractShortClips env cfg path r outputDir
        let st :=
          match st.db with
          | some db =>
            let db := updateClipStatus db url .detected
              [("detection_image", optStrVal r.image_path),
               ("detected_video", .str dvj),
               ("line_count", .int r.line_count)] env.now
            { st with db := some (saveDetections db url r) }
          | none => st
        { st with events := st.events ++
            [PipeEvent.detection date f.hour f.minute r.line_count
              (r.image_path.getD "") path] }
      else
        { st with db := st.db.map (fun db =>
            updateClipStatus db url .no_detection [] env.now) }
  { st with progressCalls := st.progressCalls ++ [(st.clips_processed, total)] }

/-- The redetect loop over the scanned files.  `idx` counts the
`cancel_event.is_set()` reads made so far (the loop makes exactly one read
per clip, before processing it); the returned `Nat` is the final read count. -/
def redetectLoop (env : PipeEnv) (cfg : PipelineCfg) (date outputDir : String)
    (cancel : Option (Nat → Bool)) (total : Nat) :
    List RFile → Nat → RedetectSt → Nat × RedetectSt
  | [], idx, st => (idx, st)
  | f :: rest, idx, st =>
    match cancel with
    | some c =>
      if c idx then (idx + 1, st)
      else redetectLoop env cfg date outputDir (some c) total rest (idx + 1)
        (redetectClipStep env cfg date outputDir total st f)
    | none => redetectLoop env cfg date outputDir none total rest idx
        (redetectClipStep env cfg date outputDir total st f)

/-- The observable outcome of one redetect run. -/
structure RedetectOut where
  result : PipelineResultM
  db : Option DBState
  checks : Nat
  detectCalls : List String
  progressCalls : List (Nat × Nat)
  compositeCalls : List (List String)
  events : List PipeEvent

/-- `Pipeline.redetect_from_local` (pipeline.py lines 242-390), for an
explicit date: scan local files, re-detect each (cancellable per clip), then
composite whatever was detected (no incremental seed) and upsert NightOutput
with the cumulative count and a `None` concat video. -/
def redetectRun (env : PipeEnv) (cfg : PipelineCfg) (db0 : Option DBState)
    (date : String) (cancel : Option (Nat → Bool)) : RedetectOut :=
  let outputDir := nightOutputDir cfg date
  let files := redetectFiles env cfg date
  let total := files.length
  let r := redetectLoop env cfg date outputDir cancel total files 0 { db := db0 }
  let checks := r.1
  let st := r.2
  let cp :=
    if st.detected_images = [] then ((none : Option String), ([] : List (List String)), st)
    else
      match env.compositeImages st.detected_images (compositeOutPath cfg date) none with
      | .ok _ => (some (compositeOutPath cfg date), [st.detected_images], st)
      | .error e =>
        (none, [st.detected_images],
         { st with events := st.events ++ [.errorEv "composite" e] })
  let compositePath := cp.1
  let compositeCalls := cp.2.1
  let st := cp.2.2
  let st :=
    match st.db with
    | some db =>
      { st with db := some (upsertOutput db date compositePath none
          ((getDetectedClips db date).length : Int) env.now) }
    | none => st
  let st := { st with events := st.events ++
      [PipeEvent.nightComplete date st.detections_found compositePath none] }
  { result := { date_str := date, clips_processed := st.clips_processed,
                detections_found := st.detections_found,
                composite_path := compositePath, video_path := none }
    db := st.db
    checks := checks
    detectCalls := st.detectCalls
    progressCalls := st.progressCalls
    compositeCalls := compositeCalls
    events := st.events }

/-- The detection images a run of the redetect loop accumulates over a file
list: one per successfully detected clip with a non-null image path. -/
def redetectDetectedImages (env : PipeEnv) (cfg : PipelineCfg)
    (fs : List RFile) : List String :=
  fs.filterMap (fun f =>
    match env.detect (rfileLocalPath cfg f) with
    | .ok r => if r.detected then r.image_path else none
    | .error _ => none)

/-! ### `Pipeline.rebuild_composite` / `Pipeline.rebuild_concatenation` -/

/-- `pathlib.Path.with_suffix`: replace the extension of the last path
component (append when it has none). -/
def withSuffix (p suffix : String) : String :=
  let rcs := p.toList.reverse
  let stemR :=
    match rcs.findIdx? (fun c => c = '.' || c = '/') with
    | some i => if rcs.getD i ' ' = '.' then rcs.drop (i + 1) else rcs
    | none => rcs
  String.mk stemR.reverse ++ suffix

/-- The observable outcome of a rebuild operation. -/
structure RebuildOut where
  result : PipelineResultM
  db : DBState
  compositeCalls : List (List String)
  concatCalls : List (List String)

/-- The per-clip body of `rebuild_composite` (pipeline.py lines 422-459):
exclusion handling over the per-line detection rows, falling back to
clip-level exclusion when none exist, and masking out excluded line regions. -/
def rebuildCompositeClipStep (env : PipeEnv) (db : DBState)
    (acc : List String × Nat) (clip : ClipRow) : List String × Nat :=
  if !clip.detection_image.truthy then acc
  else
    let imgPath := clip.detection_image.asStr
    let dets := getDetectionsByClip db clip.id
    if dets = [] then
      if !clip.excluded then (acc.1 ++ [imgPath], acc.2 + 1) else acc
    else
      let included := dets.filter (fun d => !d.excluded)
      if included = [] then acc
      else
        let excludedD := dets.filter (fun d => d.excluded)
        let cnt := acc.2 + 1
        if excludedD = [] then (acc.1 ++ [imgPath], cnt)
        else
          match env.imread imgPath with
          | none => (acc.1, cnt)
          | some img =>
            let lines := excludedD.map (fun d => (d.x1, d.y1, d.x2, d.y2))
            let _masked := env.maskLines img lines
            (acc.1 ++ [withSuffix imgPath ".masked.png"], cnt)

/-- The body of `rebuild_composite` once a store is present. -/
def rebuildCompositeBody (env : PipeEnv) (cfg : PipelineCfg) (db : DBState)
    (date : String) : RebuildOut :=
  let clips := getDetectedClips db date
  let mi := clips.foldl (rebuildCompositeClipStep env db) ([], 0)
  let maskedImages := mi.1
  let includedCount := mi.2
  let cp :=
    if maskedImages = [] then ((none : Option String), ([] : List (List String)))
    else
      match env.compositeImages maskedImages (compositeOutPath cfg date) none with
      | .ok _ => (some (compositeOutPath cfg date), [maskedImages])
      | .error _ => (none, [maskedImages])
  let existingVideo := (getOutput db date).bind (fun r => r.concat_video)
  let db := upsertOutput db date cp.1 existingVideo (includedCount : Int) env.now
  { result := { date_str := date, clips_processed := 0,
                detections_found := includedCount, composite_path := cp.1,
                video_path := existingVideo }
    db := db
    compositeCalls := cp.2
    concatCalls := [] }

/-- `Pipeline.rebuild_composite` (pipeline.py lines 404-488): raises
(`AtomcamError`, the spec's `PipelineError`) when no store is configured;
otherwise runs to completion, degrading internally on compositor or image
load failures. -/
def rebuildComposite (env : PipeEnv) (cfg : PipelineCfg) (db0 : Option DBState)
    (date : String) : Except String RebuildOut :=
  match db0 with
  | none => .error "Database required for rebuild_composite"
  | some db => .ok (rebuildCompositeBody env cfg db date)

/-- The body of `rebuild_concatenation` once a store is present. -/
def rebuildConcatBody (env : PipeEnv) (cfg : PipelineCfg) (db : DBState)
    (date : String) : RebuildOut :=
  let clips := getIncludedDetectedClips db date
  let allPaths := clips.flatMap (fun c => getDetectedVideoPaths c.detected_video)
  let vp :=
    if allPaths = [] then ((none : Option String), ([] : List (List String)))
    else
      match env.concatVideos allPaths (meteorsOutPath cfg date) with
      | .ok _ => (some (meteorsOutPath cfg date), [allPaths])
      | .error _ => (none, [allPaths])
  let existing := getOutput db date
  let existingComposite := existing.bind (fun r => r.composite_image)
  let existingCount :=
    match existing with
    | some r => r.detection_count
    | none => (clips.length : Int)
  let db := upsertOutput db date existingComposite vp.1 existingCount env.now
  { result := { date_str := date, clips_processed := 0,
                detections_found := clips.length,
                composite_path := existingComposite, video_path := vp.1 }
    db := db
    compositeCalls := []
    concatCalls := vp.2 }

/-- `Pipeline.rebuild_concatenation` (pipeline.py lines 490-532): raises when
no store is configured; otherwise runs to completion. -/
def rebuildConcatenation (env : PipeEnv) (cfg : PipelineCfg)
    (db0 : Option DBState) (date : String) : Except String RebuildOut :=
  match db0 with
  | none => .error "Database required for rebuild_concatenation"
  | some db => .ok (rebuildConcatBody env cfg db date)

/-! ## Witness fixtures (concrete sample data used by witness theorems) -/

/-- A detector environment with trivial external primitives. -/
def trivialDetectorEnv : DetectorEnv :=
  { toGray := fun f => f, findLines := fun _ => [] }

/-- A sample terminal (detected) clip row. -/
def sampleDetectedRow : ClipRow :=
  { id := 1, clip_url := "u", date_str := "d", hour := 1, minute := 5,
    local_path := some "old", status := .detected,
    detection_image := .str "img", detected_video := .null,
    line_count := .int 3, excluded := false, error_message := .null,
    created_at := 0, updated_at := 0 }

/-- A sample pending clip row. -/
def samplePendingRow : ClipRow :=
  { id := 2, clip_url := "v", date_str := "d", hour := 1, minute := 6,
    local_path := none, status := .pending,
    detection_image := .null, detected_video := .null,
    line_count := .int 0, excluded := false, error_message := .null,
    created_at := 0, updated_at := 0 }

/-- The sample night-output row. -/
def sampleNightRow : NightRow :=
  { date_str := "d", composite_image := some "out/d/d_composite.jpg",
    concat_video := some "vid", detection_count := 1,
    hidden := false, last_updated_at := 0 }

/-- A sample store holding the two rows above. -/
def sampleDb : DBState :=
  { clips := [sampleDetectedRow, samplePendingRow]
    nextClipId := 3
    detections := []
    nights := [sampleNightRow] }

/-- A one-slot schedule (01:00–02:00) for witness scenarios. -/
def sampleCfg : PipelineCfg :=
  { schedule := { startH := 1, startM := 0, endH := 2, endM := 0 }
    downloadDir := "dl"
    outputDir := "out"
    cameraHost := "cam"
    cameraBasePath := "sdcard/record"
    exposure := 1
    margin := 1/2 }

/-- A pipeline environment whose single slot yields the already-detected
sample clip (used for the idempotent-re-run witness). -/
def sampleExecEnv : PipeEnv :=
  { now := 7
    isPast := fun _ _ => true
    prevDay := fun _ => "c"
    downloadHour := fun d h =>
      if d = "d" && h = 1 then .ok [{ url := "u", path := "p", minute := 5 }]
      else .ok []
    detect := fun _ => .error "unused"
    extractClips := fun _ _ _ => .error "unused"
    compositeImages := fun _ _ _ => .ok ()
    concatVideos := fun _ _ => .ok ()
    fileExists := fun _ => true
    imread := fun _ => none
    maskLines := fun img _ => img
    hourFiles := fun _ _ => [] }

/-- A pipeline environment for the redetect witness: the single slot holds
two local files and detection always reports "no detection". -/
def sampleRedetectEnv : PipeEnv :=
  { sampleExecEnv with
    detect := fun _ => .ok { detected := false, line_count := 0,
                             image_path := none, lines := [] }
    hourFiles := fun d h => if d = "d" && h = 1 then [("05", 5), ("06", 6)] else [] }

/-- The cancellation oracle of the redetect witness: fires at the second
per-clip check. -/
def sampleCancel : Nat → Bool := fun i => decide (1 ≤ i)

/-- A re-download upsert payload against the detected sample row. -/
def sampleUpsertArgs : UpsertArgs :=
  { clip_url := "u", date_str := "d", hour := 1, minute := 5,
    local_path := some "newpath", status := .downloaded }

/-- A download upsert payload against the pending sample row. -/
def samplePendingArgs : UpsertArgs :=
  { clip_url := "v", date_str := "d", hour := 1, minute := 6,
    local_path := some "vpath", status := .downloaded }

/-- A keyword-argument list holding one allowed and one unsupported key. -/
def sampleKwargs : List (String × DBValue) :=
  [("detection_image", DBValue.str "x"), ("bogus", DBValue.int 1)]

/-! ## Helper lemmas -/

/-- `find?` through a `map` that does not change the tested predicate. -/
theorem find?_map_pred {α : Type} (p : α → Bool) (g : α → α)
    (hg : ∀ x, p (g x) = p x) :
    ∀ l : List α, (l.map g).find? p = (l.find? p).map g := by
  intro l
  induction l with
  | nil => rfl
  | cons a t ih =>
    by_cases h : p a
    · simp [List.find?_cons, hg, h]
    · simp only [List.map_cons, List.find?_cons, hg a, h]
      simpa using ih

/-- `applyKwarg` keeps every column other than the four allowed ones, and
touches an allowed column only when its key names it. -/
theorem applyKwarg_effects (r : ClipRow) (kv : String × DBValue) :
    (applyKwarg r kv).clip_url = r.clip_url ∧
    (applyKwarg r kv).date_str = r.date_str ∧
    (applyKwarg r kv).hour = r.hour ∧
    (applyKwarg r kv).minute = r.minute ∧
    (applyKwarg r kv).local_path = r.local_path ∧
    (applyKwarg r kv).status = r.status ∧
    (applyKwarg r kv).excluded = r.excluded ∧
    (applyKwarg r kv).created_at = r.created_at ∧
    (applyKwarg r kv).updated_at = r.updated_at ∧
    (kv.1 ≠ "detection_image" → (applyKwarg r kv).detection_image = r.detection_image) ∧
    (kv.1 ≠ "detected_video" → (applyKwarg r kv).detected_video = r.detected_video) ∧
    (kv.1 ≠ "line_count" → (applyKwarg r kv).line_count = r.line_count) ∧
    (kv.1 ≠ "error_message" → (applyKwarg r kv).error_message = r.error_message) := by
  unfold applyKwarg
  split
  · rename_i h1
    refine ⟨rfl, rfl, rfl, rfl, rfl, rfl, rfl, rfl, rfl, ?_, ?_, ?_, ?_⟩ <;>
      intro h <;> first | rfl | exact absurd h1 h
  · split
    · rename_i h1 h2
      refine ⟨rfl, rfl, rfl, rfl, rfl, rfl, rfl, rfl, rfl, ?_, ?_, ?_, ?_⟩ <;>
        intro h <;> first | rfl | exact absurd h2 h
    · split
      · rename_i h1 h2 h3
        refine ⟨rfl, rfl, rfl, rfl, rfl, rfl, rfl, rfl, rfl, ?_, ?_, ?_, ?_⟩ <;>
          intro h <;> first | rfl | exact absurd h3 h
      · split
        · rename_i h1 h2 h3 h4
          refine ⟨rfl, rfl, rfl, rfl, rfl, rfl, rfl, rfl, rfl, ?_, ?_, ?_, ?_⟩ <;>
            intro h <;> first | rfl | exact absurd h4 h
        · exact ⟨rfl, rfl, rfl, rfl, rfl, rfl, rfl, rfl, rfl,
            fun _ => rfl, fun _ => rfl, fun _ => rfl, fun _ => rfl⟩

/-- The fold of `applyKwarg` keeps the frame columns, and keeps an allowed
column whose key never occurs in the argument list. -/
theorem foldl_applyKwarg_effects :
    ∀ (kvs : List (String × DBValue)) (r : ClipRow),
      (kvs.foldl applyKwarg r).clip_url = r.clip_url ∧
      (kvs.foldl applyKwarg r).date_str = r.date_str ∧
      (kvs.foldl applyKwarg r).hour = r.hour ∧
      (kvs.foldl applyKwarg r).minute = r.minute ∧
      (kvs.foldl applyKwarg r).local_path = r.local_path ∧
      (kvs.foldl applyKwarg r).status = r.status ∧
      (kvs.foldl applyKwarg r).excluded = r.excluded ∧
      (kvs.foldl applyKwarg r).created_at = r.created_at ∧
      (kvs.foldl applyKwarg r).updated_at = r.updated_at ∧
      ((∀ kv ∈ kvs, kv.1 ≠ "detection_image") →
        (kvs.foldl applyKwarg r).detection_image = r.detection_image) ∧
      ((∀ kv ∈ kvs, kv.1 ≠ "detected_video") →
        (kvs.foldl applyKwarg r).detected_video = r.detected_video) ∧
      ((∀ kv ∈ kvs, kv.1 ≠ "line_count") →
        (kvs.foldl applyKwarg r).line_count = r.line_count) ∧
      ((∀ kv ∈ kvs, kv.1 ≠ "error_message") →
        (kvs.foldl applyKwarg r).error_message = r.error_message) := by
  intro kvs
  induction kvs with
  | nil => intro r; simp
  | cons kv t ih =>
    intro r
    have ha := applyKwarg_effects r kv
    have ht := ih (applyKwarg r kv)
    simp only [List.foldl_cons]
    refine ⟨ht.1.trans ha.1, ht.2.1.trans ha.2.1, ht.2.2.1.trans ha.2.2.1,
      ht.2.2.2.1.trans ha.2.2.2.1, ht.2.2.2.2.1.trans ha.2.2.2.2.1,
      ht.2.2.2.2.2.1.trans ha.2.2.2.2.2.1,
      ht.2.2.2.2.2.2.1.trans ha.2.2.2.2.2.2.1,
      ht.2.2.2.2.2.2.2.1.trans ha.2.2.2.2.2.2.2.1,
      ht.2.2.2.2.2.2.2.2.1.trans ha.2.2.2.2.2.2.2.2.1, ?_, ?_, ?_, ?_⟩
    · intro h
      have h1 := h kv (by simp)
      have h2 : ∀ x ∈ t, x.1 ≠ "detection_image" := fun x hx => h x (by simp [hx])
      exact (ht.2.2.2.2.2.2.2.2.2.1 h2).trans (ha.2.2.2.2.2.2.2.2.2.1 h1)
    · intro h
      have h1 := h kv (by simp)
      have h2 : ∀ x ∈ t, x.1 ≠ "detected_video" := fun x hx => h x (by simp [hx])
      exact (ht.2.2.2.2.2.2.2.2.2.2.1 h2).trans (ha.2.2.2.2.2.2.2.2.2.2.1 h1)
    · intro h
      have h1 := h kv (by simp)
      have h2 : ∀ x ∈ t, x.1 ≠ "line_count" := fun x hx => h x (by simp [hx])
      exact (ht.2.2.2.2.2.2.2.2.2.2.2.1 h2).trans (ha.2.2.2.2.2.2.2.2.2.2.2.1 h1)
    · intro h
      have h1 := h kv (by simp)
      have h2 : ∀ x ∈ t, x.1 ≠ "error_message" := fun x hx => h x (by simp [hx])
      exact (ht.2.2.2.2.2.2.2.2.2.2.2.2 h2).trans (ha.2.2.2.2.2.2.2.2.2.2.2.2 h1)

/-- `upsertConflictUpdate` keeps the clip URL. -/
theorem upsertConflictUpdate_clip_url (a : UpsertArgs) (now : Nat) (r : ClipRow) :
    (upsertConflictUpdate a now r).clip_url = r.clip_url := rfl

/-- `rowStatusUpdate` keeps the clip URL. -/
theorem rowStatusUpdate_clip_url (s : ClipStatus) (kw : List (String × DBValue))
    (now : Nat) (r : ClipRow) :
    (rowStatusUpdate s kw now r).clip_url = r.clip_url :=
  (foldl_applyKwarg_effects _ _).1

/-- `find?` by key through a keyed `map` whose transformer keeps the key. -/
theorem find?_keyed_map (l : List ClipRow) (key : String) (f : ClipRow → ClipRow)
    (hf : ∀ r, (f r).clip_url = r.clip_url) (u : String) :
    (l.map (fun r => if r.clip_url == key then f r else r)).find?
        (fun r => r.clip_url == u) =
      (l.find? (fun r => r.clip_url == u)).map
        (fun r => if r.clip_url == key then f r else r) := by
  apply find?_map_pred
  intro x
  by_cases hx : x.clip_url == key
  · simp [hx, hf]
  · simp [hx]


/-- `find?` over a one-row append. -/
theorem find?_append_singleton (l : List ClipRow) (nr : ClipRow) (u : String) :
    (l ++ [nr]).find? (fun x => x.clip_url == u) =
      (l.find? (fun x => x.clip_url == u)).or
        (if nr.clip_url == u then some nr else none) := by
  rw [List.find?_append]
  congr 1
  by_cases hx : nr.clip_url == u <;> simp [List.find?_cons, hx]

/-- Reading back the upserted key after `upsert_clip` on an existing row. -/
theorem getClip_upsertClip_self (db : DBState) (a : UpsertArgs) (now : Nat)
    (r : ClipRow) (h : getClip db a.clip_url = some r) :
    getClip (upsertClip db a now) a.clip_url =
      some (upsertConflictUpdate a now r) := by
  have h0 := h
  unfold getClip at h0
  have hkey0 := List.find?_some h0
  have hkey : (r.clip_url == a.clip_url) = true := hkey0
  unfold upsertClip
  rw [if_pos (show (getClip db a.clip_url).isSome = true by rw [h]; rfl)]
  simp only [getClip]
  rw [find?_keyed_map db.clips a.clip_url (upsertConflictUpdate a now)
    (upsertConflictUpdate_clip_url a now) a.clip_url]
  rw [h0]
  simp only [Option.map_some']
  rw [if_pos hkey]

/-- `upsert_clip` does not move other keys. -/
theorem getClip_upsertClip_other (db : DBState) (a : UpsertArgs) (now : Nat)
    (u : String) (h : u ≠ a.clip_url) :
    getClip (upsertClip db a now) u = getClip db u := by
  unfold upsertClip
  by_cases hs : (getClip db a.clip_url).isSome
  · rw [if_pos hs]
    simp only [getClip]
    rw [find?_keyed_map db.clips a.clip_url (upsertConflictUpdate a now)
      (upsertConflictUpdate_clip_url a now) u]
    cases hf : List.find? (fun x => x.clip_url == u) db.clips with
    | none => rfl
    | some r =>
      have hf0 := List.find?_some hf
      have hru : r.clip_url = u := by simpa using hf0
      simp only [Option.map_some']
      rw [if_neg (show ¬(r.clip_url == a.clip_url) = true by simp [hru]; exact h)]
  · rw [if_neg hs]
    simp only [getClip]
    rw [find?_append_singleton]
    have hne : ¬(a.clip_url == u) = true := by simpa using Ne.symm h
    simp [hne]

/-- Reading back the updated key after `update_clip_status`. -/
theorem getClip_updateClipStatus_self (db : DBState) (url : String)
    (s : ClipStatus) (kw : List (String × DBValue)) (now : Nat)
    (r : ClipRow) (h : getClip db url = some r) :
    getClip (updateClipStatus db url s kw now) url =
      some (rowStatusUpdate s kw now r) := by
  have h0 := h
  unfold getClip at h0
  have hkey0 := List.find?_some h0
  have hkey : (r.clip_url == url) = true := hkey0
  unfold updateClipStatus
  simp only [getClip]
  rw [find?_keyed_map db.clips url (rowStatusUpdate s kw now)
    (rowStatusUpdate_clip_url s kw now) url]
  rw [h0]
  simp only [Option.map_some']
  rw [if_pos hkey]

/-- `update_clip_status` does not move other keys. -/
theorem getClip_updateClipStatus_other (db : DBState) (url : String)
    (s : ClipStatus) (kw : List (String × DBValue)) (now : Nat)
    (u : String) (h : u ≠ url) :
    getClip (updateClipStatus db url s kw now) u = getClip db u := by
  unfold updateClipStatus
  simp only [getClip]
  rw [find?_keyed_map db.clips url (rowStatusUpdate s kw now)
    (rowStatusUpdate_clip_url s kw now) u]
  cases hf : List.find? (fun x => x.clip_url == u) db.clips with
  | none => rfl
  | some r =>
    have hf0 := List.find?_some hf
    have hru : r.clip_url = u := by simpa using hf0
    simp only [Option.map_some']
    rw [if_neg (show ¬(r.clip_url == url) = true by simp [hru]; exact h)]

/-! ## Claim C1 — terminal-status protection of `upsert_clip` -/

/-- **C1.**  Upserting over a clip whose stored status is terminal with a
non-terminal payload (`pending` or `downloaded`) leaves the stored status
unchanged while a supplied non-null `local_path` is still refreshed; and
upserting a `pending` clip with a `downloaded` payload moves it to
`downloaded`. -/
theorem upsert_clip_terminal_protection
    (db : DBState) (a : UpsertArgs) (now : Nat) (r : ClipRow)
    (hget : getClip db a.clip_url = some r) :
    (r.status.isTerminal = true →
      (a.status = ClipStatus.pending ∨ a.status = ClipStatus.downloaded) →
      ∃ r', getClip (upsertClip db a now) a.clip_url = some r' ∧
        r'.status = r.status ∧
        ∀ p, a.local_path = some p → r'.local_path = some p) ∧
    (r.status = ClipStatus.pending → a.status = ClipStatus.downloaded →
      ∃ r', getClip (upsertClip db a now) a.clip_url = some r' ∧
        r'.status = ClipStatus.downloaded) := by
  constructor
  · intro hterm _
    refine ⟨upsertConflictUpdate a now r,
      getClip_upsertClip_self db a now r hget, ?_, ?_⟩
    · simp [upsertConflictUpdate, hterm]
    · intro p hp
      simp [upsertConflictUpdate, hp]
  · intro hpend hdl
    refine ⟨upsertConflictUpdate a now r,
      getClip_upsertClip_self db a now r hget, ?_⟩
    simp [upsertConflictUpdate, hpend, hdl, ClipStatus.isTerminal]

/-- Witness for C1 on the sample store: the detected row keeps its status but
refreshes its local path under a `downloaded` re-upsert, and the pending row
moves to `downloaded`. -/
theorem upsert_clip_terminal_protection_witness :
    (∃ r', getClip (upsertClip sampleDb sampleUpsertArgs 9)
        sampleUpsertArgs.clip_url = some r' ∧
      r'.status = sampleDetectedRow.status ∧
      ∀ p, sampleUpsertArgs.local_path = some p → r'.local_path = some p) ∧
    (∃ r', getClip (upsertClip sampleDb samplePendingArgs 9)
        samplePendingArgs.clip_url = some r' ∧
      r'.status = ClipStatus.downloaded) :=
  ⟨(upsert_clip_terminal_protection sampleDb sampleUpsertArgs 9
      sampleDetectedRow (by decide)).1 (by decide) (Or.inr rfl),
   (upsert_clip_terminal_protection sampleDb samplePendingArgs 9
      samplePendingRow (by decide)).2 rfl rfl⟩

/-! ## Claim C10 — the effect frame of `update_clip_status` -/

/-- **C10.**  `update_clip_status` writes only the status, the `updated_at`
timestamp, and the keyword columns in the allowed set; unsupported keyword
arguments are silently ignored; every other column of the row is unchanged;
and — unlike `upsert_clip` — the status write is unconditional, overwriting
even a terminal status with whatever the caller passes. -/
theorem update_clip_status_effects
    (db : DBState) (url : String) (status : ClipStatus)
    (kwargs : List (String × DBValue)) (now : Nat) :
    (updateClipStatus db url status kwargs now =
      updateClipStatus db url status
        (kwargs.filter (fun kv => updateAllowedKeys.contains kv.1)) now) ∧
    (∀ u, u ≠ url →
      getClip (updateClipStatus db url status kwargs now) u = getClip db u) ∧
    (∀ r, getClip db url = some r →
      getClip (updateClipStatus db url status kwargs now) url =
        some (rowStatusUpdate status kwargs now r)) ∧
    (∀ r : ClipRow,
      (rowStatusUpdate status kwargs now r).status = status ∧
      (rowStatusUpdate status kwargs now r).updated_at = now ∧
      (rowStatusUpdate status kwargs now r).clip_url = r.clip_url ∧
      (rowStatusUpdate status kwargs now r).date_str = r.date_str ∧
      (rowStatusUpdate status kwargs now r).hour = r.hour ∧
      (rowStatusUpdate status kwargs now r).minute = r.minute ∧
      (rowStatusUpdate status kwargs now r).local_path = r.local_path ∧
      (rowStatusUpdate status kwargs now r).excluded = r.excluded ∧
      (rowStatusUpdate status kwargs now r).created_at = r.created_at ∧
      ((∀ kv ∈ kwargs, kv.1 ≠ "detection_image") →
        (rowStatusUpdate status kwargs now r).detection_image = r.detection_image) ∧
      ((∀ kv ∈ kwargs, kv.1 ≠ "detected_video") →
        (rowStatusUpdate status kwargs now r).detected_video = r.detected_video) ∧
      ((∀ kv ∈ kwargs, kv.1 ≠ "line_count") →
        (rowStatusUpdate status kwargs now r).line_count = r.line_count) ∧
      ((∀ kv ∈ kwargs, kv.1 ≠ "error_message") →
        (rowStatusUpdate status kwargs now r).error_message = r.error_message)) := by
  refine ⟨?_, ?_, ?_, ?_⟩
  · unfold updateClipStatus rowStatusUpdate
    rw [List.filter_filter]
    simp
  · intro u hu
    exact getClip_updateClipStatus_other db url status kwargs now u hu
  · intro r hr
    exact getClip_updateClipStatus_self db url status kwargs now r hr
  · intro r
    have e := foldl_applyKwarg_effects
      (kwargs.filter (fun kv => updateAllowedKeys.contains kv.1))
      { r with status := status, updated_at := now }
    have hmem : ∀ key : String,
        (∀ kv ∈ kwargs, kv.1 ≠ key) →
        ∀ kv ∈ kwargs.filter (fun kv => updateAllowedKeys.contains kv.1),
          kv.1 ≠ key := by
      intro key h kv hkv
      exact h kv (List.mem_of_mem_filter hkv)
    exact ⟨e.2.2.2.2.2.1, e.2.2.2.2.2.2.2.2.1, e.1, e.2.1, e.2.2.1,
      e.2.2.2.1, e.2.2.2.2.1, e.2.2.2.2.2.2.1, e.2.2.2.2.2.2.2.1,
      fun h => e.2.2.2.2.2.2.2.2.2.1 (hmem _ h),
      fun h => e.2.2.2.2.2.2.2.2.2.2.1 (hmem _ h),
      fun h => e.2.2.2.2.2.2.2.2.2.2.2.1 (hmem _ h),
      fun h => e.2.2.2.2.2.2.2.2.2.2.2.2 (hmem _ h)⟩

/-- Witness for C10 on the sample store: a `pending` write with one allowed
and one unsupported keyword argument overwrites the terminal status, applies
the allowed column, and equals the same call with the unsupported argument
filtered away. -/
theorem update_clip_status_effects_witness :
    (getClip (updateClipStatus sampleDb "u" ClipStatus.pending sampleKwargs 5) "u" =
      some (rowStatusUpdate ClipStatus.pending sampleKwargs 5 sampleDetectedRow)) ∧
    (updateClipStatus sampleDb "u" ClipStatus.pending sampleKwargs 5 =
      updateClipStatus sampleDb "u" ClipStatus.pending
        (sampleKwargs.filter (fun kv => updateAllowedKeys.contains kv.1)) 5) ∧
    (rowStatusUpdate ClipStatus.pending sampleKwargs 5 sampleDetectedRow).status =
      ClipStatus.pending ∧
    ((∀ kv ∈ sampleKwargs, kv.1 ≠ "detected_video") →
      (rowStatusUpdate ClipStatus.pending sampleKwargs 5 sampleDetectedRow).detected_video =
        sampleDetectedRow.detected_video) :=
  have t := update_clip_status_effects sampleDb "u" ClipStatus.pending sampleKwargs 5
  ⟨t.2.2.1 sampleDetectedRow (by decide), t.1,
   (t.2.2.2 sampleDetectedRow).1,
   (t.2.2.2 sampleDetectedRow).2.2.2.2.2.2.2.2.2.2.1⟩

/-! ## Claim C8 — rebuild operations require a configured store -/

/-- **C8.**  `rebuild_composite` and `rebuild_concatenation` raise exactly
when invoked without a store: with `none` they return the missing-store
error, and with any store they run to completion (`ok`) for every
environment — internal compositor/concatenator/image-load failures degrade
instead of raising. -/
theorem rebuild_requires_store (env : PipeEnv) (cfg : PipelineCfg) (date : String) :
    rebuildComposite env cfg none date =
      .error "Database required for rebuild_composite" ∧
    rebuildConcatenation env cfg none date =
      .error "Database required for rebuild_concatenation" ∧
    (∀ db : DBState, ∃ out, rebuildComposite env cfg (some db) date = .ok out) ∧
    (∀ db : DBState, ∃ out, rebuildConcatenation env cfg (some db) date = .ok out) :=
  ⟨rfl, rfl, fun db => ⟨rebuildCompositeBody env cfg db date, rfl⟩,
   fun db => ⟨rebuildConcatBody env cfg db date, rfl⟩⟩

/-! ## Claim C4 — time-range computation and merging -/

/-- The single-pass merge keeps the start of its running interval and yields
a chain in which every interval ends strictly before the next one starts. -/
theorem mergeRaw_spec :
    ∀ (rest : List (ℚ × ℚ)) (cur : ℚ × ℚ),
      (∃ e tl, mergeRaw cur rest = (cur.1, e) :: tl) ∧
      List.Chain' (fun a b : ℚ × ℚ => a.2 < b.1) (mergeRaw cur rest) := by
  intro rest
  induction rest with
  | nil =>
    intro cur
    exact ⟨⟨cur.2, [], by simp [mergeRaw]⟩, by simp [mergeRaw]⟩
  | cons hd tl ih =>
    intro cur
    obtain ⟨s, e⟩ := hd
    by_cases h : s ≤ cur.2
    · have := ih (cur.1, max cur.2 e)
      constructor
      · simpa [mergeRaw, h] using this.1
      · simpa [mergeRaw, h] using this.2
    · have := ih (s, e)
      obtain ⟨⟨e', tl', heq⟩, hch⟩ := this
      constructor
      · exact ⟨cur.2, mergeRaw (s, e) tl, by simp [mergeRaw, h]⟩
      · have hlt : cur.2 < s := lt_of_not_le h
        have : mergeRaw cur ((s, e) :: tl) = cur :: mergeRaw (s, e) tl := by
          simp [mergeRaw, h]
        rw [this, heq]
        rw [heq] at hch
        exact List.Chain'.cons (by simpa using hlt) hch

/-- **C4.**  `compute_time_ranges` pads each group's interval by the margin,
clamps it into `[0, duration]`, and merges overlapping or adjacent
intervals: the documented concrete cases hold, and for every input the
output is an ordered list of non-overlapping ranges (each range ends
strictly before the next begins). -/
theorem compute_time_ranges_merge :
    (∀ fps : ℚ, computeTimeRanges 1 (1/2) [0] fps 60 = [⟨0, 3/2⟩]) ∧
    (∀ fps : ℚ, computeTimeRanges 1 (1/2) [0, 1] fps 60 = [⟨0, 5/2⟩]) ∧
    (∀ fps : ℚ, computeTimeRanges 1 (1/2) [0, 10] fps 60 =
      [⟨0, 3/2⟩, ⟨19/2, 23/2⟩]) ∧
    (∀ fps : ℚ, computeTimeRanges 1 (1/2) [59] fps 60 = [⟨117/2, 60⟩]) ∧
    (∀ (exposure margin fps duration : ℚ) (gs : List Nat),
      List.Chain' (fun a b : TimeRange => a.end_sec < b.start_sec)
        (computeTimeRanges exposure margin gs fps duration)) := by
  refine ⟨?_, ?_, ?_, ?_, ?_⟩
  · intro fps
    simp [computeTimeRanges, mergeRaw, List.insertionSort, List.orderedInsert]
    norm_num [max_def, min_def]
  · intro fps
    simp [computeTimeRanges, mergeRaw, List.insertionSort, List.orderedInsert]
    norm_num [max_def, min_def]
  · intro fps
    simp [computeTimeRanges, mergeRaw, List.insertionSort, List.orderedInsert]
    norm_num [max_def, min_def]
  · intro fps
    simp [computeTimeRanges, mergeRaw, List.insertionSort, List.orderedInsert]
    norm_num [max_def, min_def]
  · intro exposure margin fps duration gs
    unfold computeTimeRanges
    by_cases hgs : gs = []
    · simp [hgs]
    · rw [if_neg hgs]
      cases hraw : (List.insertionSort (· ≤ ·) gs).map (fun idx =>
          (max 0 ((idx : ℚ) * exposure - margin),
           min duration (((idx : ℚ) + 1) * exposure + margin))) with
      | nil => simp
      | cons r0 rest =>
        simp only []
        have hch := (mergeRaw_spec rest r0).2
        exact List.chain'_map_of_chain'
          (fun p : ℚ × ℚ => (⟨p.1, p.2⟩ : TimeRange)) (fun a b hab => hab) hch

/-! ## Claim C5 — the per-group frame count -/

/-- Counterexample to C5 as stated: at a measured frame rate of 15.9 fps and
a 1 s exposure, the code's `int()` truncation yields 15 frames per group,
while the claimed `max(2, round(frameRate × exposure))` yields 16. -/
theorem frames_per_group_round_counterexample :
    framesPerGroupOf (defaultFps (159/10)) 1 ≠
      specFramesPerGroup (defaultFps (159/10)) 1 ∧
    framesPerGroupOf (defaultFps (159/10)) 1 = 15 ∧
    specFramesPerGroup (defaultFps (159/10)) 1 = 16 := by
  have hd : defaultFps (159/10 : ℚ) = 159/10 := by
    unfold defaultFps
    rw [if_neg (by norm_num)]
  have h1 : framesPerGroupOf (defaultFps (159/10)) 1 = 15 := by
    rw [hd]
    unfold framesPerGroupOf pythonInt
    rw [if_pos (by norm_num : (0:ℚ) ≤ 159/10 * 1)]
    norm_num
  have h2 : specFramesPerGroup (defaultFps (159/10)) 1 = 16 := by
    rw [hd]
    unfold specFramesPerGroup
    rw [round_eq]
    norm_num
  exact ⟨by rw [h1, h2]; decide, h1, h2⟩

/-- **C5 (amended).**  The detector's group size is
`max(2, trunc(frameRate × exposureDuration))` — truncation toward zero, not
rounding — with the measured frame rate replaced by 15.0 whenever it is
non-positive (unavailable), and left as measured otherwise. -/
theorem frames_per_group_formula (rawFps exposure : ℚ) :
    framesPerGroupOf (defaultFps rawFps) exposure =
      max 2 (pythonInt (defaultFps rawFps * exposure)) ∧
    (rawFps ≤ 0 → defaultFps rawFps = 15) ∧
    (0 < rawFps → defaultFps rawFps = rawFps) := by
  refine ⟨?_, ?_, ?_⟩
  · unfold framesPerGroupOf
    rcases lt_or_le (pythonInt (defaultFps rawFps * exposure)) 2 with h | h
    · rw [if_pos h]
      omega
    · rw [if_neg (not_lt.mpr h)]
      omega
  · intro h
    unfold defaultFps
    rw [if_pos h]
  · intro h
    unfold defaultFps
    rw [if_neg (not_le.mpr h)]

/-- Witness for the amended C5 at concrete inputs: an unavailable (zero)
frame rate defaults to 15, and the formula holds there. -/
theorem frames_per_group_formula_witness :
    framesPerGroupOf (defaultFps 0) 1 =
      max 2 (pythonInt (defaultFps 0 * 1)) ∧
    defaultFps (0 : ℚ) = 15 :=
  ⟨(frames_per_group_formula 0 1).1,
   (frames_per_group_formula 0 1).2.1 (by norm_num)⟩

/-! ## Claim C6 — the per-group diff composite -/

/-- Counterexample to C6 as stated: for the two one-pixel frames `[10], [3]`
the code's composite (saturating `cv2.subtract`) is `[0]`, not the claimed
absolute difference `[7]`. -/
theorem diff_composite_absdiff_counterexample :
    diffComposite [[10], [3]] ≠ specAbsDiffComposite [[10], [3]] ∧
    diffComposite [[10], [3]] = some [0] ∧
    specAbsDiffComposite [[10], [3]] = some [7] := by
  refine ⟨?_, ?_, ?_⟩ <;> decide

/-- `getD` distributes over `zipWith` inside the common length. -/
theorem getD_zipWith (f : Nat → Nat → Nat) :
    ∀ (a b : List Nat) (p : Nat), p < a.length → p < b.length →
      (a.zipWith f b).getD p 0 = f (a.getD p 0) (b.getD p 0) := by
  intro a
  induction a with
  | nil => intro b p hpa _; simp at hpa
  | cons x xs ih =>
    intro b p hpa hpb
    cases b with
    | nil => simp at hpb
    | cons y ys =>
      cases p with
      | zero => simp [List.zipWith]
      | succ q =>
        simp only [List.zipWith, List.getD_cons_succ]
        exact ih ys q (by simpa using hpa) (by simpa using hpb)

/-- Both components of a consecutive pair belong to the frame list. -/
theorem consecPairs_mem :
    ∀ (g : List GrayFrame) (ab : GrayFrame × GrayFrame),
      ab ∈ consecPairs g → ab.1 ∈ g ∧ ab.2 ∈ g := by
  intro g
  induction g with
  | nil => intro ab hab; simp [consecPairs] at hab
  | cons a t ih =>
    intro ab hab
    cases t with
    | nil => simp [consecPairs] at hab
    | cons b rest =>
      simp only [consecPairs, List.mem_cons] at hab
      rcases hab with hab | hab
      · subst hab
        exact ⟨by simp, by simp⟩
      · have := ih ab hab
        exact ⟨List.mem_cons_of_mem a this.1, List.mem_cons_of_mem a this.2⟩

/-- The fold of the per-group diff loop, seeded with an accumulator, computes
the pixel-wise maximum of the accumulator and all saturating differences. -/
theorem diffFoldAux :
    ∀ (ps : List (GrayFrame × GrayFrame)) (acc : GrayFrame) (w : Nat),
      acc.length = w →
      (∀ ab ∈ ps, ab.1.length = w ∧ ab.2.length = w) →
      ∃ c, ps.foldl
          (fun acc p =>
            let diff := cv2Subtract p.2 p.1
            match acc with
            | none => some diff
            | some c => some (cv2Max c diff)) (some acc) = some c ∧
        c.length = w ∧
        ∀ p : Nat, p < w →
          c.getD p 0 = (ps.map (fun ab => ab.2.getD p 0 - ab.1.getD p 0)).foldl
            max (acc.getD p 0) := by
  intro ps
  induction ps with
  | nil =>
    intro acc w hlen _
    exact ⟨acc, rfl, hlen, fun p _ => rfl⟩
  | cons ab t ih =>
    intro acc w hlen hmem
    have hab := hmem ab (by simp)
    have hdiff : (cv2Subtract ab.2 ab.1).length = w := by
      simp [cv2Subtract, List.length_zipWith, hab.1, hab.2]
    have hacc' : (cv2Max acc (cv2Subtract ab.2 ab.1)).length = w := by
      simp [cv2Max, List.length_zipWith, hlen, hdiff]
    obtain ⟨c, hc, hclen, hcget⟩ := ih (cv2Max acc (cv2Subtract ab.2 ab.1)) w hacc'
      (fun x hx => hmem x (List.mem_cons_of_mem ab hx))
    refine ⟨c, ?_, hclen, ?_⟩
    · simpa using hc
    · intro p hp
      rw [hcget p hp]
      simp only [List.map_cons, List.foldl_cons]
      congr 1
      have h1 : (cv2Max acc (cv2Subtract ab.2 ab.1)).getD p 0 =
          max (acc.getD p 0) ((cv2Subtract ab.2 ab.1).getD p 0) := by
        apply getD_zipWith
        · omega
        · omega
      have h2 : (cv2Subtract ab.2 ab.1).getD p 0 =
          ab.2.getD p 0 - ab.1.getD p 0 := by
        apply getD_zipWith
        · omega
        · omega
      rw [h1, h2]

/-- **C6 (amended).**  For a group of at least two equal-sized grayscale
frames, the code's diff composite is the pixel-wise maximum over all
consecutive pairs of the **zero-clamped** (saturating) difference
`max(0, f_{i+1} − f_i)` — `cv2.subtract`, not the absolute difference. -/
theorem diff_composite_saturating (g : List GrayFrame) (w : Nat)
    (hw : ∀ f ∈ g, f.length = w) (h2 : 2 ≤ g.length) :
    ∃ c, diffComposite g = some c ∧ c.length = w ∧
      ∀ p : Nat, p < w →
        c.getD p 0 = ((consecPairs g).map
          (fun ab => ab.2.getD p 0 - ab.1.getD p 0)).foldl max 0 := by
  match g, h2 with
  | f0 :: f1 :: rest, _ =>
    have hf0 : f0.length = w := hw f0 (by simp)
    have hf1 : f1.length = w := hw f1 (by simp)
    have hacc : (cv2Subtract f1 f0).length = w := by
      simp [cv2Subtract, List.length_zipWith, hf0, hf1]
    have hmem : ∀ ab ∈ consecPairs (f1 :: rest),
        ab.1.length = w ∧ ab.2.length = w := by
      intro ab hab
      have := consecPairs_mem (f1 :: rest) ab hab
      exact ⟨hw ab.1 (List.mem_cons_of_mem f0 this.1),
             hw ab.2 (List.mem_cons_of_mem f0 this.2)⟩
    obtain ⟨c, hc, hclen, hcget⟩ := diffFoldAux (consecPairs (f1 :: rest))
      (cv2Subtract f1 f0) w hacc hmem
    refine ⟨c, ?_, hclen, ?_⟩
    · unfold diffComposite
      show ((f0, f1) :: consecPairs (f1 :: rest)).foldl _ none = some c
      simpa using hc
    · intro p hp
      rw [hcget p hp]
      show _ = (((f0, f1) :: consecPairs (f1 :: rest)).map
        (fun ab => ab.2.getD p 0 - ab.1.getD p 0)).foldl max 0
      simp only [List.map_cons, List.foldl_cons, Nat.zero_max]
      congr 1
      have hsub : (cv2Subtract f1 f0).getD p 0 = f1.getD p 0 - f0.getD p 0 := by
        apply getD_zipWith
        · omega
        · omega
      exact hsub

/-- Witness for the amended C6 on the two-frame group `[[10], [3]]`. -/
theorem diff_composite_saturating_witness :
    ∃ c, diffComposite [[10], [3]] = some c ∧ c.length = 1 ∧
      ∀ p : Nat, p < 1 →
        c.getD p 0 = ((consecPairs [[10], [3]]).map
          (fun ab => ab.2.getD p 0 - ab.1.getD p 0)).foldl max 0 :=
  diff_composite_saturating [[10], [3]] 1 (by decide) (by decide)

/-! ## Claim C7 — degenerate sources never fail detection -/

/-- A source with fewer than two decodable frames yields no groups. -/
theorem readGroups_short (n : Nat) (fs : List ColorFrame)
    (h : fs.length < 2) : readGroups n fs = [] := by
  rw [readGroups]
  rw [if_pos]
  simp only [List.length_take]
  omega

/-- **C7.**  `detect` returns (rather than raises) on degenerate sources: an
unopenable source yields the all-empty not-detected result, and an opened
source with fewer than two decodable frames yields not-detected with zero
lines, no image path, and an empty detection-group list.  (The embedding is
a total function, so no exception can escape either.) -/
theorem detect_degenerate_total (env : DetectorEnv) (exposure : ℚ)
    (cap : CapModel) (stem dir : String) :
    (cap.opened = false →
      detectImpl env exposure cap stem dir =
        { detected := false, line_count := 0, image_path := none, lines := [] }) ∧
    (cap.opened = true → cap.frames.length < 2 →
      (detectImpl env exposure cap stem dir).detected = false ∧
      (detectImpl env exposure cap stem dir).line_count = 0 ∧
      (detectImpl env exposure cap stem dir).image_path = none ∧
      (detectImpl env exposure cap stem dir).lines = [] ∧
      (detectImpl env exposure cap stem dir).detection_groups = []) := by
  constructor
  · intro h
    unfold detectImpl
    rw [h]
    rfl
  · intro hopen hlen
    have hempty := readGroups_short
      ((framesPerGroupOf (defaultFps cap.fps) exposure).toNat) cap.frames hlen
    unfold detectImpl
    rw [hopen]
    simp [hempty]

/-- Witness for C7: a trivial environment with an unopenable capture, and an
opened capture holding a single frame. -/
theorem detect_degenerate_total_witness :
    (detectImpl trivialDetectorEnv 1 { opened := false, fps := 0, frames := [] }
        "s" "o" =
      { detected := false, line_count := 0, image_path := none, lines := [] }) ∧
    ((detectImpl trivialDetectorEnv 1
        { opened := true, fps := 0, frames := [[5]] } "s" "o").detected = false ∧
     (detectImpl trivialDetectorEnv 1
        { opened := true, fps := 0, frames := [[5]] } "s" "o").detection_groups = []) :=
  have t1 := (detect_degenerate_total trivialDetectorEnv 1
    { opened := false, fps := 0, frames := [] } "s" "o").1 rfl
  have t2 := (detect_degenerate_total trivialDetectorEnv 1
    { opened := true, fps := 0, frames := [[5]] } "s" "o").2 rfl (by decide)
  ⟨t1, t2.1, t2.2.2.2.2⟩

/-! ## Claim C9 — redetect cancellation and progress protocol -/

/-- One redetect clip step: the counters, the detector trace, the progress
trace, and the accumulated detection images advance by exactly one clip. -/
theorem redetectClipStep_trace (env : PipeEnv) (cfg : PipelineCfg)
    (date outputDir : String) (total : Nat) (st : RedetectSt) (f : RFile) :
    (redetectClipStep env cfg date outputDir total st f).clips_processed =
      st.clips_processed + 1 ∧
    (redetectClipStep env cfg date outputDir total st f).detectCalls =
      st.detectCalls ++ [rfileLocalPath cfg f] ∧
    (redetectClipStep env cfg date outputDir total st f).progressCalls =
      st.progressCalls ++ [(st.clips_processed + 1, total)] ∧
    (redetectClipStep env cfg date outputDir total st f).detected_images =
      st.detected_images ++ redetectDetectedImages env cfg [f] := by
  unfold redetectClipStep redetectDetectedImages
  cases henv : env.detect (rfileLocalPath cfg f) with
  | error e => simp [List.filterMap_cons, henv]
  | ok r =>
    cases hdet : r.detected with
    | false => simp [List.filterMap_cons, henv, hdet]
    | true =>
      cases hip : r.image_path with
      | none => cases hdb : st.db <;> simp [List.filterMap_cons, henv, hdet, hip, hdb]
      | some p => cases hdb : st.db <;> simp [List.filterMap_cons, henv, hdet, hip, hdb]

/-- The redetect clip fold over a file list, traced. -/
theorem redetectFold_trace (env : PipeEnv) (cfg : PipelineCfg)
    (date outputDir : String) (total : Nat) :
    ∀ (fs : List RFile) (st : RedetectSt),
      (fs.foldl (redetectClipStep env cfg date outputDir total) st).clips_processed =
        st.clips_processed + fs.length ∧
      (fs.foldl (redetectClipStep env cfg date outputDir total) st).detectCalls =
        st.detectCalls ++ fs.map (rfileLocalPath cfg) ∧
      (fs.foldl (redetectClipStep env cfg date outputDir total) st).progressCalls =
        st.progressCalls ++
          (List.range fs.length).map (fun i => (st.clips_processed + i + 1, total)) ∧
      (fs.foldl (redetectClipStep env cfg date outputDir total) st).detected_images =
        st.detected_images ++ redetectDetectedImages env cfg fs := by
  intro fs
  induction fs with
  | nil => intro st; simp [redetectDetectedImages]
  | cons f rest ih =>
    intro st
    have hstep := redetectClipStep_trace env cfg date outputDir total st f
    have hrest := ih (redetectClipStep env cfg date outputDir total st f)
    simp only [List.foldl_cons]
    refine ⟨?_, ?_, ?_, ?_⟩
    · rw [hrest.1, hstep.1]
      simp only [List.length_cons]
      omega
    · rw [hrest.2.1, hstep.2.1]
      simp
    · rw [hrest.2.2.1, hstep.2.2.1, hstep.1]
      simp only [List.length_cons, List.range_succ_eq_map, List.map_cons,
        List.map_map, List.append_assoc, List.cons_append, List.nil_append]
      congr 1
      congr 1
      apply List.map_congr_left
      intro i _
      simp [Function.comp]
      omega
    · rw [hrest.2.2.2, hstep.2.2.2]
      unfold redetectDetectedImages
      simp [List.filterMap_cons]
      cases henv : env.detect (rfileLocalPath cfg f) with
      | error e => simp
      | ok r =>
        cases hdet : r.detected with
        | false => simp [hdet]
        | true => cases hip : r.image_path <;> simp [hdet, hip]

/-- With a token that first fires at the `j`-th check, the redetect loop
checks `j + 1` times and processes exactly the first `j` files. -/
theorem redetectLoop_cancelled (env : PipeEnv) (cfg : PipelineCfg)
    (date outputDir : String) (c : Nat → Bool) (total : Nat) :
    ∀ (fs : List RFile) (j idx : Nat) (st : RedetectSt),
      j < fs.length →
      (∀ i, i < j → c (idx + i) = false) →
      c (idx + j) = true →
      redetectLoop env cfg date outputDir (some c) total fs idx st =
        (idx + j + 1,
         (fs.take j).foldl (redetectClipStep env cfg date outputDir total) st) := by
  intro fs
  induction fs with
  | nil => intro j idx st hj _ _; simp at hj
  | cons f rest ih =>
    intro j idx st hj h1 h2
    cases j with
    | zero =>
      have hc : c idx = true := by simpa using h2
      simp [redetectLoop, hc]
    | succ j' =>
      have hc : c idx = false := by simpa using h1 0 (Nat.succ_pos j')
      have hrec := ih j' (idx + 1)
        (redetectClipStep env cfg date outputDir total st f)
        (by simpa using Nat.lt_of_succ_lt_succ hj)
        (fun i hi => by
          have := h1 (i + 1) (Nat.succ_lt_succ hi)
          simpa [Nat.add_assoc, Nat.add_comm 1 i] using this)
        (by
          have := h2
          simpa [Nat.add_assoc, Nat.add_comm 1 j'] using this)
      simp only [redetectLoop, hc, Bool.false_eq_true, if_false]
      rw [hrec]
      simp only [List.take_succ_cons, List.foldl_cons]
      congr 1
      omega

/-- With a token that never fires over the file list, the redetect loop
checks once per file and processes all of them. -/
theorem redetectLoop_uncancelled (env : PipeEnv) (cfg : PipelineCfg)
    (date outputDir : String) (c : Nat → Bool) (total : Nat) :
    ∀ (fs : List RFile) (idx : Nat) (st : RedetectSt),
      (∀ i, i < fs.length → c (idx + i) = false) →
      redetectLoop env cfg date outputDir (some c) total fs idx st =
        (idx + fs.length,
         fs.foldl (redetectClipStep env cfg date outputDir total) st) := by
  intro fs
  induction fs with
  | nil => intro idx st _; simp [redetectLoop]
  | cons f rest ih =>
    intro idx st h1
    have hc : c idx = false := by simpa using h1 0 (by simp)
    have hrec := ih (idx + 1) (redetectClipStep env cfg date outputDir total st f)
      (fun i hi => by
        have := h1 (i + 1) (by simpa using Nat.succ_lt_succ hi)
        simpa [Nat.add_assoc, Nat.add_comm 1 i] using this)
    simp only [redetectLoop, hc, Bool.false_eq_true, if_false]
    rw [hrec]
    simp only [List.length_cons, List.foldl_cons]
    congr 1
    omega

/-- Outcome of `redetect_from_local` once its loop result is known: the run's
observable traces are exactly those of the processed prefix. -/
theorem redetectRun_of_loop (env : PipeEnv) (cfg : PipelineCfg)
    (db0 : Option DBState) (date : String) (c : Nat → Bool)
    (pfx : List RFile) (checksV : Nat)
    (hloop : redetectLoop env cfg date (nightOutputDir cfg date) (some c)
        (redetectFiles env cfg date).length (redetectFiles env cfg date) 0
        { db := db0 } =
      (checksV, pfx.foldl (redetectClipStep env cfg date (nightOutputDir cfg date)
        (redetectFiles env cfg date).length) { db := db0 })) :
    (redetectRun env cfg db0 date (some c)).checks = checksV ∧
    (redetectRun env cfg db0 date (some c)).result.clips_processed = pfx.length ∧
    (redetectRun env cfg db0 date (some c)).detectCalls =
      pfx.map (rfileLocalPath cfg) ∧
    (redetectRun env cfg db0 date (some c)).progressCalls =
      (List.range pfx.length).map
        (fun i => (i + 1, (redetectFiles env cfg date).length)) ∧
    (redetectRun env cfg db0 date (some c)).compositeCalls =
      (if redetectDetectedImages env cfg pfx = [] then []
       else [redetectDetectedImages env cfg pfx]) := by
  have hfold := redetectFold_trace env cfg date (nightOutputDir cfg date)
    (redetectFiles env cfg date).length pfx { db := db0 }
  simp only [redetectRun]
  rw [hloop]
  have hcp : (pfx.foldl (redetectClipStep env cfg date (nightOutputDir cfg date)
      (redetectFiles env cfg date).length) { db := db0 }).clips_processed =
      pfx.length := by
    rw [hfold.1]
    simp
  have hdc : (pfx.foldl (redetectClipStep env cfg date (nightOutputDir cfg date)
      (redetectFiles env cfg date).length) { db := db0 }).detectCalls =
      pfx.map (rfileLocalPath cfg) := by
    rw [hfold.2.1]
    rfl
  have hpc : (pfx.foldl (redetectClipStep env cfg date (nightOutputDir cfg date)
      (redetectFiles env cfg date).length) { db := db0 }).progressCalls =
      (List.range pfx.length).map
        (fun i => (i + 1, (redetectFiles env cfg date).length)) := by
    rw [hfold.2.2.1]
    simp
  have hdi : (pfx.foldl (redetectClipStep env cfg date (nightOutputDir cfg date)
      (redetectFiles env cfg date).length) { db := db0 }).detected_images =
      redetectDetectedImages env cfg pfx := by
    rw [hfold.2.2.2]
    rfl
  by_cases himg : redetectDetectedImages env cfg pfx = []
  · rw [if_pos himg]
    simp only [hdi, himg, if_pos rfl]
    cases hdb : (pfx.foldl (redetectClipStep env cfg date (nightOutputDir cfg date)
        (redetectFiles env cfg date).length) { db := db0 }).db <;>
      simp [hdb, hcp, hdc, hpc]
  · rw [if_neg himg]
    simp only [hdi]
    rw [if_neg himg]
    cases hcomp : env.compositeImages (redetectDetectedImages env cfg pfx)
        (compositeOutPath cfg date) none with
    | ok u =>
      cases hdb : (pfx.foldl (redetectClipStep env cfg date (nightOutputDir cfg date)
          (redetectFiles env cfg date).length) { db := db0 }).db <;>
        simp [hdb, hcp, hdc, hpc]
    | error e =>
      cases hdb : (pfx.foldl (redetectClipStep env cfg date (nightOutputDir cfg date)
          (redetectFiles env cfg date).length) { db := db0 }).db <;>
        simp [hdb, hcp, hdc, hpc]

/-- **C9.**  In `redetect_from_local` the cancellation token is read exactly
once per clip, before the clip is processed: if the token first fires at the
`k`-th check, the run makes `k + 1` checks, processes (counts) exactly the
first `k` clips, detects exactly those clips, reports progress
`(1, total) … (k, total)` — after every processed clip, detection errors
included — and still finalizes one composite from the detection images
gathered before the cancellation point (none when there were none); with a
token that never fires, every clip is processed the same way. -/
theorem redetect_cancellation_protocol (env : PipeEnv) (cfg : PipelineCfg)
    (db0 : Option DBState) (date : String) (c : Nat → Bool) (k : Nat) :
    (k < (redetectFiles env cfg date).length →
      (∀ i, i < k → c i = false) → c k = true →
      (redetectRun env cfg db0 date (some c)).checks = k + 1 ∧
      (redetectRun env cfg db0 date (some c)).result.clips_processed = k ∧
      (redetectRun env cfg db0 date (some c)).detectCalls =
        ((redetectFiles env cfg date).take k).map (rfileLocalPath cfg) ∧
      (redetectRun env cfg db0 date (some c)).progressCalls =
        (List.range k).map (fun i => (i + 1, (redetectFiles env cfg date).length)) ∧
      (redetectRun env cfg db0 date (some c)).compositeCalls =
        (if redetectDetectedImages env cfg ((redetectFiles env cfg date).take k) = []
         then []
         else [redetectDetectedImages env cfg
            ((redetectFiles env cfg date).take k)])) ∧
    ((∀ i, i < (redetectFiles env cfg date).length → c i = false) →
      (redetectRun env cfg db0 date (some c)).checks =
        (redetectFiles env cfg date).length ∧
      (redetectRun env cfg db0 date (some c)).result.clips_processed =
        (redetectFiles env cfg date).length ∧
      (redetectRun env cfg db0 date (some c)).detectCalls =
        (redetectFiles env cfg date).map (rfileLocalPath cfg) ∧
      (redetectRun env cfg db0 date (some c)).progressCalls =
        (List.range (redetectFiles env cfg date).length).map
          (fun i => (i + 1, (redetectFiles env cfg date).length)) ∧
      (redetectRun env cfg db0 date (some c)).compositeCalls =
        (if redetectDetectedImages env cfg (redetectFiles env cfg date) = []
         then []
         else [redetectDetectedImages env cfg (redetectFiles env cfg date)])) := by
  constructor
  · intro hk h1 h2
    have hloop := redetectLoop_cancelled env cfg date (nightOutputDir cfg date) c
      (redetectFiles env cfg date).length (redetectFiles env cfg date) k 0
      { db := db0 } hk (fun i hi => by simpa using h1 i hi) (by simpa using h2)
    have hmain := redetectRun_of_loop env cfg db0 date c
      ((redetectFiles env cfg date).take k) (0 + k + 1) hloop
    have hlen : ((redetectFiles env cfg date).take k).length = k := by
      simp only [List.length_take]
      omega
    refine ⟨?_, ?_, hmain.2.2.1, ?_, hmain.2.2.2.2⟩
    · rw [hmain.1]
      omega
    · rw [hmain.2.1, hlen]
    · rw [hmain.2.2.2.1, hlen]
  · intro h1
    have hloop := redetectLoop_uncancelled env cfg date (nightOutputDir cfg date) c
      (redetectFiles env cfg date).length (redetectFiles env cfg date) 0
      { db := db0 } (fun i hi => by simpa using h1 i hi)
    have hmain := redetectRun_of_loop env cfg db0 date c
      (redetectFiles env cfg date) (0 + (redetectFiles env cfg date).length) hloop
    refine ⟨?_, hmain.2.1, hmain.2.2.1, hmain.2.2.2.1, hmain.2.2.2.2⟩
    rw [hmain.1]
    omega

/-- Witness for C9: with two local files and a token firing at the second
check, the run checks twice, processes and detects one clip, reports one
progress call, and (nothing having been detected) invokes no compositor. -/
theorem redetect_cancellation_protocol_witness :
    (redetectRun sampleRedetectEnv sampleCfg (some sampleDb) "d"
        (some sampleCancel)).checks = 2 ∧
    (redetectRun sampleRedetectEnv sampleCfg (some sampleDb) "d"
        (some sampleCancel)).result.clips_processed = 1 ∧
    (redetectRun sampleRedetectEnv sampleCfg (some sampleDb) "d"
        (some sampleCancel)).detectCalls =
      ((redetectFiles sampleRedetectEnv sampleCfg "d").take 1).map
        (rfileLocalPath sampleCfg) ∧
    (redetectRun sampleRedetectEnv sampleCfg (some sampleDb) "d"
        (some sampleCancel)).progressCalls =
      (List.range 1).map
        (fun i => (i + 1, (redetectFiles sampleRedetectEnv sampleCfg "d").length)) ∧
    (redetectRun sampleRedetectEnv sampleCfg (some sampleDb) "d"
        (some sampleCancel)).compositeCalls =
      (if redetectDetectedImages sampleRedetectEnv sampleCfg
          ((redetectFiles sampleRedetectEnv sampleCfg "d").take 1) = []
       then []
       else [redetectDetectedImages sampleRedetectEnv sampleCfg
          ((redetectFiles sampleRedetectEnv sampleCfg "d").take 1)]) :=
  (redetect_cancellation_protocol sampleRedetectEnv sampleCfg (some sampleDb) "d"
    sampleCancel 1).1 (by decide) (by decide) (by decide)

/-! ## Claim C2 — cumulative detection count and untouched concat video -/

/-- `upsert_clip` leaves the night-outputs table alone. -/
theorem upsertClip_nights (db : DBState) (a : UpsertArgs) (now : Nat) :
    (upsertClip db a now).nights = db.nights := by
  unfold upsertClip
  split <;> rfl

/-- `update_clip_status` leaves the night-outputs table alone. -/
theorem updateClipStatus_nights (db : DBState) (url : String) (s : ClipStatus)
    (kw : List (String × DBValue)) (now : Nat) :
    (updateClipStatus db url s kw now).nights = db.nights := rfl

/-- `_save_detections` leaves the night-outputs table alone. -/
theorem saveDetections_nights (db : DBState) (url : String)
    (r : DetectionResultM) : (saveDetections db url r).nights = db.nights := by
  unfold saveDetections
  split
  · rfl
  · cases getClip db url <;> rfl

/-- The detection half of the clip body leaves the night-outputs table alone. -/
theorem execDetectPhase_nights (env : PipeEnv) (cfg : PipelineCfg)
    (date outputDir : String) (hour : Nat) (st : ExecSt) (it : DLItem) :
    ((execDetectPhase env cfg date outputDir hour st it).db).map
        (fun d => d.nights) =
      (st.db).map (fun d => d.nights) := by
  unfold execDetectPhase
  cases henv : env.detect it.path with
  | error e =>
    cases hdb : st.db <;> simp [hdb, updateClipStatus_nights]
  | ok r =>
    cases hdet : r.detected with
    | false => cases hdb : st.db <;> simp [hdb, hdet, updateClipStatus_nights]
    | true =>
      cases hip : r.image_path with
      | none =>
        cases hdb : st.db <;>
          simp [hdb, hdet, hip, updateClipStatus_nights, saveDetections_nights]
      | some p =>
        cases hdb : st.db <;>
          simp [hdb, hdet, hip, updateClipStatus_nights, saveDetections_nights]

/-- The clip body leaves the night-outputs table alone. -/
theorem execClipStep_nights (env : PipeEnv) (cfg : PipelineCfg)
    (date outputDir : String) (hour : Nat) (st : ExecSt) (it : DLItem) :
    ((execClipStep env cfg date outputDir hour st it).db).map
        (fun d => d.nights) =
      (st.db).map (fun d => d.nights) := by
  unfold execClipStep
  by_cases hrange : clipInRange cfg.schedule hour it.minute
  · rw [if_neg (by simp [hrange])]
    cases hdb : st.db with
    | none =>
      have := execDetectPhase_nights env cfg date outputDir hour
        { st with clips_processed := st.clips_processed + 1 } it
      simpa [hdb] using this
    | some db =>
      cases hget : getClip (upsertClip db
          { clip_url := it.url, date_str := date, hour := hour,
            minute := it.minute, local_path := some it.path,
            status := .downloaded } env.now) it.url with
      | none =>
        have := execDetectPhase_nights env cfg date outputDir hour
          { st with
                    clips_processed := st.clips_processed + 1,
                    db := some (upsertClip db
            { clip_url := it.url, date_str := date, hour := hour,
              minute := it.minute, local_path := some it.path,
              status := .downloaded } env.now) } it
        simp only [hget]
        simpa [hdb, upsertClip_nights] using this
      | some row =>
        by_cases hterm : row.status.isTerminal
        · simp only [hget, hterm, if_true]
          split <;> simp [hdb, upsertClip_nights]
        · have := execDetectPhase_nights env cfg date outputDir hour
            { st with
                      clips_processed := st.clips_processed + 1,
                      db := some (upsertClip db
              { clip_url := it.url, date_str := date, hour := hour,
                minute := it.minute, local_path := some it.path,
                status := .downloaded } env.now) } it
          simp only [hget, hterm, Bool.false_eq_true, if_false]
          simpa [hdb, upsertClip_nights] using this
  · rw [if_pos (by simp [hrange])]

/-- The clip fold over an hour's downloads leaves the night-outputs table alone. -/
theorem execItemsFold_nights (env : PipeEnv) (cfg : PipelineCfg)
    (date outputDir : String) (hour : Nat) :
    ∀ (items : List DLItem) (st : ExecSt),
      ((items.foldl (execClipStep env cfg date outputDir hour) st).db).map
          (fun d => d.nights) =
        (st.db).map (fun d => d.nights) := by
  intro items
  induction items with
  | nil => intro st; rfl
  | cons it rest ih =>
    intro st
    simp only [List.foldl_cons]
    rw [ih (execClipStep env cfg date outputDir hour st it)]
    exact execClipStep_nights env cfg date outputDir hour st it

/-- The slot fold of `execute` leaves the night-outputs table alone. -/
theorem execSlotsFold_nights (env : PipeEnv) (cfg : PipelineCfg)
    (date outputDir : String) :
    ∀ (slots : List (String × Nat)) (st : ExecSt),
      ((slots.foldl (execSlotStep env cfg date outputDir false) st).db).map
          (fun d => d.nights) =
        (st.db).map (fun d => d.nights) := by
  intro slots
  induction slots with
  | nil => intro st; rfl
  | cons slot rest ih =>
    intro st
    simp only [List.foldl_cons]
    rw [ih (execSlotStep env cfg date outputDir false st slot)]
    unfold execSlotStep
    rw [if_neg (by simp)]
    cases hdl : env.downloadHour slot.1 slot.2 with
    | error e => rfl
    | ok items => exact execItemsFold_nights env cfg date outputDir slot.2 items st

/-- `find?` by date over a replace-style append: the filtered prefix holds no
matching row, so the appended row is found. -/
theorem find?_replace_append (l : List NightRow) (row : NightRow) (date : String)
    (hrow : (row.date_str == date) = true) :
    ((l.filter (fun r => !(r.date_str == date))) ++ [row]).find?
      (fun r => r.date_str == date) = some row := by
  rw [List.find?_append]
  have hnone : (l.filter (fun r => !(r.date_str == date))).find?
      (fun r => r.date_str == date) = none := by
    rw [List.find?_eq_none]
    intro x hx
    have := (List.mem_filter.mp hx).2
    simpa using this
  rw [hnone]
  simp [List.find?_cons, hrow]

/-- Reading back the date just written by `upsert_output`. -/
theorem getOutput_upsertOutput_self (db : DBState) (date : String)
    (c v : Option String) (k : Int) (now : Nat) :
    getOutput (upsertOutput db date c v k now) date =
      some { date_str := date, composite_image := c, concat_video := v,
             detection_count := k, hidden := false, last_updated_at := now } := by
  unfold upsertOutput getOutput
  exact find?_replace_append db.nights
    { date_str := date, composite_image := c, concat_video := v,
      detection_count := k, hidden := false, last_updated_at := now }
    date (by simp)

/-- `upsert_output` leaves the clips table alone. -/
theorem getDetectedClips_upsertOutput (db : DBState) (date : String)
    (c v : Option String) (k : Int) (now : Nat) (x : String) :
    getDetectedClips (upsertOutput db date c v k now) x =
      getDetectedClips db x := rfl

/-- `get_output` only reads the night-outputs table. -/
theorem getOutput_congr_nights (d d0 : DBState) (h : d.nights = d0.nights)
    (x : String) : getOutput d x = getOutput d0 x := by
  unfold getOutput
  rw [h]

/-- The final store of a non-dry `execute` run: the mid-run store (whose
night table the clip loop never touched) with exactly one `upsert_output`
of the fresh cumulative detected count and the pre-existing concat video. -/
theorem executeRun_db_shape (env : PipeEnv) (cfg : PipelineCfg)
    (d0 : DBState) (date : String) :
    ∃ (d : DBState) (cpPath : Option String),
      d.nights = d0.nights ∧
      (executeRun env cfg (some d0) date false).db =
        some (upsertOutput d date cpPath
          ((getOutput d date).bind (fun r => r.concat_video))
          ((getDetectedClips d date).length : Int) env.now) := by
  have hnf := execSlotsFold_nights env cfg date (nightOutputDir cfg date)
    (filterAvailableSlots env.isPast (buildTimeSlots cfg.schedule env.prevDay date))
    { db := some d0 }
  set st := (filterAvailableSlots env.isPast
      (buildTimeSlots cfg.schedule env.prevDay date)).foldl
    (execSlotStep env cfg date (nightOutputDir cfg date) false)
    { db := some d0 } with hst
  obtain ⟨d, hd, hdn⟩ : ∃ d, st.db = some d ∧ d.nights = d0.nights := by
    cases hmid : st.db with
    | none => rw [hmid] at hnf; simp at hnf
    | some d =>
      rw [hmid] at hnf
      simp only [Option.map_some'] at hnf
      exact ⟨d, rfl, by simpa using hnf⟩
  refine ⟨d,
    (if st.new_detected_images = []
     then (if env.fileExists (compositeOutPath cfg date)
           then some (compositeOutPath cfg date) else none)
     else (match env.compositeImages st.new_detected_images
         (compositeOutPath cfg date)
         (if env.fileExists (compositeOutPath cfg date)
          then some (compositeOutPath cfg date) else none) with
       | .ok _ => some (compositeOutPath cfg date)
       | .error _ => none)), hdn, ?_⟩
  simp only [executeRun, Bool.false_eq_true, if_false, ← hst]
  by_cases h1 : st.new_detected_images = []
  · rw [if_pos h1, if_pos h1]
    by_cases h2 : env.fileExists (compositeOutPath cfg date)
    · rw [if_pos h2, if_pos h2]
      simp only [hd]
    · rw [if_neg h2, if_neg h2]
      simp only [hd]
  · rw [if_neg h1, if_neg h1]
    cases hcomp : env.compositeImages st.new_detected_images
        (compositeOutPath cfg date)
        (if env.fileExists (compositeOutPath cfg date)
         then some (compositeOutPath cfg date) else none) with
    | ok u => simp only [hcomp, hd]
    | error e => simp only [hcomp, hd]

/-- **C2.**  After a (non-dry) `execute` run with a store configured, the
NightOutput row for the date carries the cumulative detected-clip count as
read fresh from the store at the end of the run — not this run's delta —
and its concat-video field is exactly the value stored before the run. -/
theorem night_output_cumulative_count (env : PipeEnv) (cfg : PipelineCfg)
    (d0 : DBState) (date : String) :
    ∃ d1 row,
      (executeRun env cfg (some d0) date false).db = some d1 ∧
      getOutput d1 date = some row ∧
      row.detection_count = ((getDetectedClips d1 date).length : Int) ∧
      row.concat_video = (getOutput d0 date).bind (fun r => r.concat_video) := by
  obtain ⟨d, cpPath, hdn, hdb⟩ := executeRun_db_shape env cfg d0 date
  refine ⟨_, _, hdb, getOutput_upsertOutput_self d date cpPath _ _ env.now, ?_, ?_⟩
  · show ((getDetectedClips d date).length : Int) = _
    rw [getDetectedClips_upsertOutput]
  · show ((getOutput d date).bind (fun r => r.concat_video)) = _
    rw [getOutput_congr_nights d d0 hdn]

/-! ## Claim C3 — idempotence over terminal clips -/

/-- `_save_detections` leaves the clips table alone. -/
theorem getClip_saveDetections (db : DBState) (url' : String)
    (r : DetectionResultM) (u : String) :
    getClip (saveDetections db url' r) u = getClip db u := by
  unfold saveDetections
  split
  · rfl
  · cases getClip db url' <;> rfl

/-- Filtering through a map that does not change the filter's verdict keeps
the number of selected elements. -/
theorem filter_length_map_congr {α : Type} (g : α → α) (p : α → Bool) :
    ∀ l : List α, (∀ r ∈ l, p (g r) = p r) →
      ((l.map g).filter p).length = (l.filter p).length := by
  intro l
  induction l with
  | nil => intro _; rfl
  | cons a t ih =>
    intro h
    have ha := h a (by simp)
    have ht := ih (fun r hr => h r (by simp [hr]))
    by_cases hp : p a
    · simp only [List.map_cons, List.filter_cons, ha, hp, if_true, List.length_cons]
      omega
    · simp only [List.map_cons, List.filter_cons, ha, hp]
      simp only [Bool.false_eq_true, if_false]
      exact ht

/-- A `downloaded`-status upsert never changes the number of detected clips
of any date: an existing row keeps its status when terminal and moves
between non-detected statuses otherwise, and a fresh row starts
non-detected. -/
theorem getDetectedClips_len_upsertClip (db : DBState) (a : UpsertArgs)
    (now : Nat) (x : String) (ha : a.status = ClipStatus.downloaded) :
    (getDetectedClips (upsertClip db a now) x).length =
      (getDetectedClips db x).length := by
  unfold upsertClip
  split
  · show ((db.clips.map (fun r =>
        if r.clip_url == a.clip_url then upsertConflictUpdate a now r else r)).filter
        (fun r => r.date_str == x && r.status == ClipStatus.detected)).length = _
    apply filter_length_map_congr
    intro r _
    by_cases hm : r.clip_url == a.clip_url
    · rw [if_pos hm]
      cases hstat : r.status <;>
        simp [upsertConflictUpdate, ClipStatus.isTerminal, hstat, ha] <;> rfl
    · rw [if_neg hm]
  · simp only [getDetectedClips]
    rw [List.filter_append]
    have hnew : (List.filter
        (fun r : ClipRow => r.date_str == x && r.status == ClipStatus.detected)
        [{ id := db.nextClipId, clip_url := a.clip_url, date_str := a.date_str,
           hour := a.hour, minute := a.minute, local_path := a.local_path,
           status := a.status, detection_image := .null, detected_video := .null,
           line_count := .int 0, excluded := false, error_message := .null,
           created_at := now, updated_at := now }]) = [] := by
      have hfd : (ClipStatus.downloaded == ClipStatus.detected) = false := by decide
      simp [List.filter_cons, ha, hfd]
    rw [hnew]
    simp

/-- The idempotence guard, as one equation: a clip whose stored status is
terminal is never handed to the detector — the step only performs the
re-download bookkeeping upsert and, for a `detected` clip with a stored
detection image, re-counts that image toward this run's totals. -/
theorem execClipStep_terminal_skip (env : PipeEnv) (cfg : PipelineCfg)
    (date outputDir : String) (hour : Nat) (st : ExecSt) (it : DLItem)
    (d : DBState) (r' : ClipRow)
    (hdb : st.db = some d)
    (hrange : clipInRange cfg.schedule hour it.minute = true)
    (hget : getClip d it.url = some r')
    (hterm : r'.status.isTerminal = true) :
    execClipStep env cfg date outputDir hour st it =
      (if r'.status == ClipStatus.detected && r'.detection_image.truthy then
        { st with
          clips_processed := st.clips_processed + 1,
          db := some (upsertClip d
            { clip_url := it.url, date_str := date, hour := hour,
              minute := it.minute, local_path := some it.path,
              status := .downloaded } env.now),
          detected_images := st.detected_images ++ [r'.detection_image.asStr],
          detections_found := st.detections_found + 1 }
      else
        { st with
          clips_processed := st.clips_processed + 1,
          db := some (upsertClip d
            { clip_url := it.url, date_str := date, hour := hour,
              minute := it.minute, local_path := some it.path,
              status := .downloaded } env.now) }) := by
  have hself := getClip_upsertClip_self d
    { clip_url := it.url, date_str := date, hour := hour, minute := it.minute,
      local_path := some it.path, status := .downloaded } env.now r' hget
  have hrowstat : (upsertConflictUpdate
      { clip_url := it.url, date_str := date, hour := hour, minute := it.minute,
        local_path := some it.path, status := .downloaded } env.now r').status =
      r'.status := by
    simp [upsertConflictUpdate, hterm]
  have hrowimg : (upsertConflictUpdate
      { clip_url := it.url, date_str := date, hour := hour, minute := it.minute,
        local_path := some it.path, status := .downloaded } env.now r').detection_image =
      r'.detection_image := rfl
  unfold execClipStep
  rw [if_neg (by simp [hrange])]
  simp only [hdb]
  rw [hself]
  simp only [hrowstat, hrowimg]
  rw [if_pos hterm]

/-- One clip step of `execute` over a store whose relevant row is terminal:
the store only receives the bookkeeping upsert (statuses and the detected
count are unchanged for every key and date), and the detector, the new-image
accumulator and the compositor trace are untouched. -/
theorem execClipStep_all_terminal (env : PipeEnv) (cfg : PipelineCfg)
    (date outputDir : String) (hour : Nat) (d0 : DBState) (st : ExecSt)
    (it : DLItem) (d : DBState)
    (hdb : st.db = some d)
    (hstat : ∀ u, (getClip d u).map (fun r => r.status) =
      (getClip d0 u).map (fun r => r.status))
    (hcnt : ∀ x, (getDetectedClips d x).length = (getDetectedClips d0 x).length)
    (hterm : clipInRange cfg.schedule hour it.minute = true →
      ∃ r, getClip d0 it.url = some r ∧ r.status.isTerminal = true) :
    ∃ d', (execClipStep env cfg date outputDir hour st it).db = some d' ∧
      (∀ u, (getClip d' u).map (fun r => r.status) =
        (getClip d0 u).map (fun r => r.status)) ∧
      (∀ x, (getDetectedClips d' x).length = (getDetectedClips d0 x).length) ∧
      (execClipStep env cfg date outputDir hour st it).detectCalls =
        st.detectCalls ∧
      (execClipStep env cfg date outputDir hour st it).new_detected_images =
        st.new_detected_images ∧
      (execClipStep env cfg date outputDir hour st it).compositeCalls =
        st.compositeCalls := by
  by_cases hrange : clipInRange cfg.schedule hour it.minute = true
  · obtain ⟨r, hr, hrterm⟩ := hterm hrange
    have hmap := hstat it.url
    rw [hr] at hmap
    cases hget : getClip d it.url with
    | none => rw [hget] at hmap; simp at hmap
    | some r' =>
      rw [hget] at hmap
      simp only [Option.map_some'] at hmap
      have hr'stat : r'.status = r.status := by
        have := Option.some.inj hmap
        exact this
      have hr'term : r'.status.isTerminal = true := by rw [hr'stat]; exact hrterm
      have hskip := execClipStep_terminal_skip env cfg date outputDir hour st it
        d r' hdb hrange hget hr'term
      rw [hskip]
      have hself := getClip_upsertClip_self d
        { clip_url := it.url, date_str := date, hour := hour,
          minute := it.minute, local_path := some it.path,
          status := .downloaded } env.now r' hget
      have hrowstat : (upsertConflictUpdate
          { clip_url := it.url, date_str := date, hour := hour,
            minute := it.minute, local_path := some it.path,
            status := .downloaded } env.now r').status = r'.status := by
        simp [upsertConflictUpdate, hr'term]
      refine ⟨upsertClip d
        { clip_url := it.url, date_str := date, hour := hour,
          minute := it.minute, local_path := some it.path,
          status := .downloaded } env.now, ?_, ?_, ?_, ?_, ?_, ?_⟩
      · split <;> rfl
      · intro u
        by_cases hu : u = it.url
        · subst hu
          rw [hself, ← hstat it.url, hget]
          simp only [Option.map_some']
          rw [hrowstat]
        · rw [getClip_upsertClip_other d _ env.now u (by simpa using hu)]
          exact hstat u
      · intro x
        exact (getDetectedClips_len_upsertClip d _ env.now x rfl).trans (hcnt x)
      · split <;> rfl
      · split <;> rfl
      · split <;> rfl
  · have hf : clipInRange cfg.schedule hour it.minute = false := by
      revert hrange
      cases clipInRange cfg.schedule hour it.minute <;> simp
    have hid : execClipStep env cfg date outputDir hour st it = st := by
      unfold execClipStep
      rw [if_pos (by rw [hf]; rfl)]
    rw [hid]
    exact ⟨d, hdb, hstat, hcnt, rfl, rfl, rfl⟩

/-- The clip fold over an hour, when every in-range item is terminal in the
reference store. -/
theorem execItemsFold_all_terminal (env : PipeEnv) (cfg : PipelineCfg)
    (date outputDir : String) (hour : Nat) (d0 : DBState) :
    ∀ (items : List DLItem) (st : ExecSt) (d : DBState),
      st.db = some d →
      (∀ u, (getClip d u).map (fun r => r.status) =
        (getClip d0 u).map (fun r => r.status)) →
      (∀ x, (getDetectedClips d x).length = (getDetectedClips d0 x).length) →
      (∀ it ∈ items, clipInRange cfg.schedule hour it.minute = true →
        ∃ r, getClip d0 it.url = some r ∧ r.status.isTerminal = true) →
      ∃ d', (items.foldl (execClipStep env cfg date outputDir hour) st).db = some d' ∧
        (∀ u, (getClip d' u).map (fun r => r.status) =
          (getClip d0 u).map (fun r => r.status)) ∧
        (∀ x, (getDetectedClips d' x).length = (getDetectedClips d0 x).length) ∧
        (items.foldl (execClipStep env cfg date outputDir hour) st).detectCalls =
          st.detectCalls ∧
        (items.foldl (execClipStep env cfg date outputDir hour) st).new_detected_images =
          st.new_detected_images ∧
        (items.foldl (execClipStep env cfg date outputDir hour) st).compositeCalls =
          st.compositeCalls := by
  intro items
  induction items with
  | nil =>
    intro st d hdb hstat hcnt _
    exact ⟨d, hdb, hstat, hcnt, rfl, rfl, rfl⟩
  | cons it rest ih =>
    intro st d hdb hstat hcnt hterm
    obtain ⟨d1, hdb1, hstat1, hcnt1, hdc1, hni1, hcc1⟩ :=
      execClipStep_all_terminal env cfg date outputDir hour d0 st it d
        hdb hstat hcnt (hterm it (by simp))
    obtain ⟨d', hdb', hstat', hcnt', hdc', hni', hcc'⟩ :=
      ih (execClipStep env cfg date outputDir hour st it) d1 hdb1 hstat1 hcnt1
        (fun x hx => hterm x (by simp [hx]))
    refine ⟨d', ?_, hstat', hcnt', ?_, ?_, ?_⟩
    · simpa using hdb'
    · simp only [List.foldl_cons]
      rw [hdc', hdc1]
    · simp only [List.foldl_cons]
      rw [hni', hni1]
    · simp only [List.foldl_cons]
      rw [hcc', hcc1]

/-- The slot fold of `execute`, when every processed item is terminal in the
reference store. -/
theorem execSlotsFold_all_terminal (env : PipeEnv) (cfg : PipelineCfg)
    (date outputDir : String) (d0 : DBState) :
    ∀ (slots : List (String × Nat)) (st : ExecSt) (d : DBState),
      st.db = some d →
      (∀ u, (getClip d u).map (fun r => r.status) =
        (getClip d0 u).map (fun r => r.status)) →
      (∀ x, (getDetectedClips d x).length = (getDetectedClips d0 x).length) →
      (∀ slot ∈ slots, ∀ items, env.downloadHour slot.1 slot.2 = .ok items →
        ∀ it ∈ items, clipInRange cfg.schedule slot.2 it.minute = true →
        ∃ r, getClip d0 it.url = some r ∧ r.status.isTerminal = true) →
      ∃ d', (slots.foldl (execSlotStep env cfg date outputDir false) st).db = some d' ∧
        (∀ u, (getClip d' u).map (fun r => r.status) =
          (getClip d0 u).map (fun r => r.status)) ∧
        (∀ x, (getDetectedClips d' x).length = (getDetectedClips d0 x).length) ∧
        (slots.foldl (execSlotStep env cfg date outputDir false) st).detectCalls =
          st.detectCalls ∧
        (slots.foldl (execSlotStep env cfg date outputDir false) st).new_detected_images =
          st.new_detected_images ∧
        (slots.foldl (execSlotStep env cfg date outputDir false) st).compositeCalls =
          st.compositeCalls := by
  intro slots
  induction slots with
  | nil =>
    intro st d hdb hstat hcnt _
    exact ⟨d, hdb, hstat, hcnt, rfl, rfl, rfl⟩
  | cons slot rest ih =>
    intro st d hdb hstat hcnt hterm
    have hslot : ∃ d1, (execSlotStep env cfg date outputDir false st slot).db = some d1 ∧
        (∀ u, (getClip d1 u).map (fun r => r.status) =
          (getClip d0 u).map (fun r => r.status)) ∧
        (∀ x, (getDetectedClips d1 x).length = (getDetectedClips d0 x).length) ∧
        (execSlotStep env cfg date outputDir false st slot).detectCalls =
          st.detectCalls ∧
        (execSlotStep env cfg date outputDir false st slot).new_detected_images =
          st.new_detected_images ∧
        (execSlotStep env cfg date outputDir false st slot).compositeCalls =
          st.compositeCalls := by
      unfold execSlotStep
      rw [if_neg (by simp)]
      cases hdl : env.downloadHour slot.1 slot.2 with
      | error e => exact ⟨d, hdb, hstat, hcnt, rfl, rfl, rfl⟩
      | ok items =>
        exact execItemsFold_all_terminal env cfg date outputDir slot.2 d0 items
          st d hdb hstat hcnt (fun it hit => hterm slot (by simp) items hdl it hit)
    obtain ⟨d1, hdb1, hstat1, hcnt1, hdc1, hni1, hcc1⟩ := hslot
    obtain ⟨d', hdb', hstat', hcnt', hdc', hni', hcc'⟩ :=
      ih (execSlotStep env cfg date outputDir false st slot) d1 hdb1 hstat1 hcnt1
        (fun s hs => hterm s (by simp [hs]))
    refine ⟨d', by simpa using hdb', hstat', hcnt', ?_, ?_, ?_⟩
    · simp only [List.foldl_cons]
      rw [hdc', hdc1]
    · simp only [List.foldl_cons]
      rw [hni', hni1]
    · simp only [List.foldl_cons]
      rw [hcc', hcc1]

/-- A non-dry `execute` run over a night whose every processed clip is
already terminal: the detector is never invoked, the compositor is never
invoked, and the NightOutput row keeps its composite path, concat video and
detection count. -/
theorem executeRun_unchanged_night (env : PipeEnv) (cfg : PipelineCfg)
    (d0 : DBState) (date : String) (prior : NightRow)
    (H0 : ∀ q ∈ processedItems env cfg date,
      (match getClip d0 q.2.url with
       | some r => r.status.isTerminal
       | none => false) = true)
    (hprior : getOutput d0 date = some prior)
    (hcomp : prior.composite_image = some (compositeOutPath cfg date))
    (hexists : env.fileExists (compositeOutPath cfg date) = true)
    (hcount : prior.detection_count = ((getDetectedClips d0 date).length : Int)) :
    (executeRun env cfg (some d0) date false).detectCalls = [] ∧
    (executeRun env cfg (some d0) date false).compositeCalls = [] ∧
    (executeRun env cfg (some d0) date false).result.composite_path =
      prior.composite_image ∧
    ∃ d1 row, (executeRun env cfg (some d0) date false).db = some d1 ∧
      getOutput d1 date = some row ∧
      row.composite_image = prior.composite_image ∧
      row.concat_video = prior.concat_video ∧
      row.detection_count = prior.detection_count := by
  have H : ∀ q ∈ processedItems env cfg date,
      ∃ r, getClip d0 q.2.url = some r ∧ r.status.isTerminal = true := by
    intro q hq
    have h := H0 q hq
    cases hg : getClip d0 q.2.url with
    | none => rw [hg] at h; simp at h
    | some r =>
      rw [hg] at h
      exact ⟨r, rfl, h⟩
  have hterm : ∀ slot ∈ filterAvailableSlots env.isPast
        (buildTimeSlots cfg.schedule env.prevDay date),
      ∀ items, env.downloadHour slot.1 slot.2 = .ok items →
      ∀ it ∈ items, clipInRange cfg.schedule slot.2 it.minute = true →
      ∃ r, getClip d0 it.url = some r ∧ r.status.isTerminal = true := by
    intro slot hs items hdl it hit hr
    apply H (slot.2, it)
    unfold processedItems slotItems
    apply List.mem_filter.mpr
    constructor
    · apply List.mem_flatMap.mpr
      refine ⟨slot, hs, ?_⟩
      rw [hdl]
      exact List.mem_map.mpr ⟨it, hit, rfl⟩
    · simpa using hr
  have hnf := execSlotsFold_nights env cfg date (nightOutputDir cfg date)
    (filterAvailableSlots env.isPast (buildTimeSlots cfg.schedule env.prevDay date))
    { db := some d0 }
  obtain ⟨d, hdb, hstat, hcnt, hdc, hni, hcc⟩ :=
    execSlotsFold_all_terminal env cfg date (nightOutputDir cfg date) d0
      (filterAvailableSlots env.isPast (buildTimeSlots cfg.schedule env.prevDay date))
      { db := some d0 } d0 rfl (fun _ => rfl) (fun _ => rfl) hterm
  set st := (filterAvailableSlots env.isPast
      (buildTimeSlots cfg.schedule env.prevDay date)).foldl
    (execSlotStep env cfg date (nightOutputDir cfg date) false)
    { db := some d0 } with hst
  have hdn : d.nights = d0.nights := by
    rw [hdb] at hnf
    simpa using hnf
  have hni0 : st.new_detected_images = [] := hni
  have hdc0 : st.detectCalls = [] := hdc
  have hcc0 : st.compositeCalls = [] := hcc
  have hgo : getOutput d date = some prior := by
    rw [getOutput_congr_nights d d0 hdn]
    exact hprior
  simp only [executeRun, Bool.false_eq_true, if_false, ← hst]
  rw [if_pos hni0, if_pos hexists]
  simp only [hdb]
  refine ⟨hdc0, hcc0, hcomp.symm, ?_⟩
  refine ⟨_, _, rfl, getOutput_upsertOutput_self d date _ _ _ env.now,
    hcomp.symm, ?_, ?_⟩
  · show (getOutput d date).bind (fun r => r.concat_video) = prior.concat_video
    rw [hgo]
    rfl
  · show ((getDetectedClips d date).length : Int) = prior.detection_count
    rw [hcnt date, hcount]

/-- The detection half of the clip body: the row of any other key is
untouched and exactly one detector invocation — on this clip — is recorded. -/
theorem execDetectPhase_frame (env : PipeEnv) (cfg : PipelineCfg)
    (date outputDir : String) (hour : Nat) (st : ExecSt) (it : DLItem)
    (u : String) (hu : u ≠ it.url) :
    ((execDetectPhase env cfg date outputDir hour st it).db).bind
        (fun d => getClip d u) =
      (st.db).bind (fun d => getClip d u) ∧
    (execDetectPhase env cfg date outputDir hour st it).detectCalls =
      st.detectCalls ++ [(it.url, it.path)] := by
  unfold execDetectPhase
  cases henv : env.detect it.path with
  | error e =>
    cases hdb : st.db <;>
      simp [hdb, getClip_updateClipStatus_other _ _ _ _ _ u hu]
  | ok r =>
    cases hdet : r.detected with
    | false =>
      cases hdb : st.db <;>
        simp [hdb, hdet, getClip_updateClipStatus_other _ _ _ _ _ u hu]
    | true =>
      cases hip : r.image_path with
      | none =>
        cases hdb : st.db <;>
          simp [hdb, hdet, hip, getClip_saveDetections,
            getClip_updateClipStatus_other _ _ _ _ _ u hu]
      | some p =>
        cases hdb : st.db <;>
          simp [hdb, hdet, hip, getClip_saveDetections,
            getClip_updateClipStatus_other _ _ _ _ _ u hu]

/-- One clip step preserves "this key's row is terminal and the detector has
never been invoked on it". -/
theorem execClipStep_no_detect_terminal (env : PipeEnv) (cfg : PipelineCfg)
    (date outputDir : String) (hour : Nat) (u : String) (st : ExecSt)
    (it : DLItem) (d : DBState) (r : ClipRow)
    (hdb : st.db = some d)
    (hget : getClip d u = some r)
    (hterm : r.status.isTerminal = true)
    (hnd : ∀ p, (u, p) ∉ st.detectCalls) :
    ∃ d' r', (execClipStep env cfg date outputDir hour st it).db = some d' ∧
      getClip d' u = some r' ∧ r'.status.isTerminal = true ∧
      ∀ p, (u, p) ∉ (execClipStep env cfg date outputDir hour st it).detectCalls := by
  by_cases hrange : clipInRange cfg.schedule hour it.minute = true
  · by_cases hu : it.url = u
    · subst hu
      have hskip := execClipStep_terminal_skip env cfg date outputDir hour st it
        d r hdb hrange hget hterm
      rw [hskip]
      have hself := getClip_upsertClip_self d
        { clip_url := it.url, date_str := date, hour := hour,
          minute := it.minute, local_path := some it.path,
          status := .downloaded } env.now r hget
      have hrowstat : (upsertConflictUpdate
          { clip_url := it.url, date_str := date, hour := hour,
            minute := it.minute, local_path := some it.path,
            status := .downloaded } env.now r).status = r.status := by
        simp [upsertConflictUpdate, hterm]
      refine ⟨upsertClip d
        { clip_url := it.url, date_str := date, hour := hour,
          minute := it.minute, local_path := some it.path,
          status := .downloaded } env.now,
        upsertConflictUpdate
          { clip_url := it.url, date_str := date, hour := hour,
            minute := it.minute, local_path := some it.path,
            status := .downloaded } env.now r, ?_, ?_, ?_, ?_⟩
      · split <;> rfl
      · exact hself
      · rw [hrowstat]; exact hterm
      · intro p
        have : (if r.status == ClipStatus.detected && r.detection_image.truthy
            then { st with
              clips_processed := st.clips_processed + 1,
              db := some (upsertClip d
                { clip_url := it.url, date_str := date, hour := hour,
                  minute := it.minute, local_path := some it.path,
                  status := .downloaded } env.now),
              detected_images := st.detected_images ++ [r.detection_image.asStr],
              detections_found := st.detections_found + 1 }
            else { st with
              clips_processed := st.clips_processed + 1,
              db := some (upsertClip d
                { clip_url := it.url, date_str := date, hour := hour,
                  minute := it.minute, local_path := some it.path,
                  status := .downloaded } env.now) }).detectCalls =
            st.detectCalls := by
          split <;> rfl
        rw [this]
        exact hnd p
    · -- different key: walk the step and use the frame lemma
      unfold execClipStep
      rw [if_neg (by simp [hrange])]
      simp only [hdb]
      have hgetu : getClip (upsertClip d
          { clip_url := it.url, date_str := date, hour := hour,
            minute := it.minute, local_path := some it.path,
            status := .downloaded } env.now) u = some r := by
        rw [getClip_upsertClip_other d _ env.now u (fun h => hu (by simpa using h.symm))]
        exact hget
      cases hget2 : getClip (upsertClip d
          { clip_url := it.url, date_str := date, hour := hour,
            minute := it.minute, local_path := some it.path,
            status := .downloaded } env.now) it.url with
      | none =>
        have hframe := execDetectPhase_frame env cfg date outputDir hour
          { st with
            clips_processed := st.clips_processed + 1,
            db := some (upsertClip d
              { clip_url := it.url, date_str := date, hour := hour,
                minute := it.minute, local_path := some it.path,
                status := .downloaded } env.now) } it u (fun h => hu h.symm)
        simp only [Option.some_bind] at hframe
        cases hdfin : (execDetectPhase env cfg date outputDir hour
            { st with
              clips_processed := st.clips_processed + 1,
              db := some (upsertClip d
                { clip_url := it.url, date_str := date, hour := hour,
                  minute := it.minute, local_path := some it.path,
                  status := .downloaded } env.now) } it).db with
        | none => rw [hdfin] at hframe; rw [hgetu] at hframe; simp at hframe
        | some dfin =>
          rw [hdfin] at hframe
          rw [hgetu] at hframe
          simp only [Option.some_bind] at hframe
          refine ⟨dfin, r, rfl, hframe.1, hterm, ?_⟩
          intro p hp
          rw [hframe.2] at hp
          rcases List.mem_append.mp hp with h | h
          · exact hnd p h
          · simp at h
            exact hu (h.1.symm ▸ rfl)
      | some row =>
        by_cases hrterm : row.status.isTerminal = true
        · simp only [hget2, hrterm, if_true]
          refine ⟨upsertClip d
            { clip_url := it.url, date_str := date, hour := hour,
              minute := it.minute, local_path := some it.path,
              status := .downloaded } env.now, r, ?_, hgetu, hterm, ?_⟩
          · split <;> rfl
          · intro p
            have : (if row.status == ClipStatus.detected && row.detection_image.truthy
                then { st with
                  clips_processed := st.clips_processed + 1,
                  db := some (upsertClip d
                    { clip_url := it.url, date_str := date, hour := hour,
                      minute := it.minute, local_path := some it.path,
                      status := .downloaded } env.now),
                  detected_images := st.detected_images ++ [row.detection_image.asStr],
                  detections_found := st.detections_found + 1 }
                else { st with
                  clips_processed := st.clips_processed + 1,
                  db := some (upsertClip d
                    { clip_url := it.url, date_str := date, hour := hour,
                      minute := it.minute, local_path := some it.path,
                      status := .downloaded } env.now) }).detectCalls =
                st.detectCalls := by
              split <;> rfl
            rw [this]
            exact hnd p
        · simp only [hget2, hrterm, Bool.false_eq_true, if_false]
          have hframe := execDetectPhase_frame env cfg date outputDir hour
            { st with
              clips_processed := st.clips_processed + 1,
              db := some (upsertClip d
                { clip_url := it.url, date_str := date, hour := hour,
                  minute := it.minute, local_path := some it.path,
                  status := .downloaded } env.now) } it u (fun h => hu h.symm)
          simp only [Option.some_bind] at hframe
          cases hdfin : (execDetectPhase env cfg date outputDir hour
              { st with
                clips_processed := st.clips_processed + 1,
                db := some (upsertClip d
                  { clip_url := it.url, date_str := date, hour := hour,
                    minute := it.minute, local_path := some it.path,
                    status := .downloaded } env.now) } it).db with
          | none => rw [hdfin] at hframe; rw [hgetu] at hframe; simp at hframe
          | some dfin =>
            rw [hdfin] at hframe
            rw [hgetu] at hframe
            simp only [Option.some_bind] at hframe
            refine ⟨dfin, r, rfl, hframe.1, hterm, ?_⟩
            intro p hp
            rw [hframe.2] at hp
            rcases List.mem_append.mp hp with h | h
            · exact hnd p h
            · simp at h
              exact hu (h.1.symm ▸ rfl)
  · have hf : clipInRange cfg.schedule hour it.minute = false := by
      revert hrange
      cases clipInRange cfg.schedule hour it.minute <;> simp
    have hid : execClipStep env cfg date outputDir hour st it = st := by
      unfold execClipStep
      rw [if_pos (by rw [hf]; rfl)]
    rw [hid]
    exact ⟨d, r, hdb, hget, hterm, hnd⟩

/-- The clip fold preserves "this key's row is terminal and never detected". -/
theorem execItemsFold_no_detect (env : PipeEnv) (cfg : PipelineCfg)
    (date outputDir : String) (hour : Nat) (u : String) :
    ∀ (items : List DLItem) (st : ExecSt) (d : DBState) (r : ClipRow),
      st.db = some d → getClip d u = some r → r.status.isTerminal = true →
      (∀ p, (u, p) ∉ st.detectCalls) →
      ∃ d' r', (items.foldl (execClipStep env cfg date outputDir hour) st).db = some d' ∧
        getClip d' u = some r' ∧ r'.status.isTerminal = true ∧
        ∀ p, (u, p) ∉
          (items.foldl (execClipStep env cfg date outputDir hour) st).detectCalls := by
  intro items
  induction items with
  | nil =>
    intro st d r hdb hget hterm hnd
    exact ⟨d, r, hdb, hget, hterm, hnd⟩
  | cons it rest ih =>
    intro st d r hdb hget hterm hnd
    obtain ⟨d1, r1, hdb1, hget1, hterm1, hnd1⟩ :=
      execClipStep_no_detect_terminal env cfg date outputDir hour u st it d r
        hdb hget hterm hnd
    obtain ⟨d', r', hdb', hget', hterm', hnd'⟩ :=
      ih (execClipStep env cfg date outputDir hour st it) d1 r1 hdb1 hget1 hterm1 hnd1
    exact ⟨d', r', by simpa using hdb', hget', hterm', by simpa using hnd'⟩

/-- The slot fold preserves "this key's row is terminal and never detected". -/
theorem execSlotsFold_no_detect (env : PipeEnv) (cfg : PipelineCfg)
    (date outputDir : String) (u : String) :
    ∀ (slots : List (String × Nat)) (st : ExecSt) (d : DBState) (r : ClipRow),
      st.db = some d → getClip d u = some r → r.status.isTerminal = true →
      (∀ p, (u, p) ∉ st.detectCalls) →
      ∃ d' r', (slots.foldl (execSlotStep env cfg date outputDir false) st).db = some d' ∧
        getClip d' u = some r' ∧ r'.status.isTerminal = true ∧
        ∀ p, (u, p) ∉
          (slots.foldl (execSlotStep env cfg date outputDir false) st).detectCalls := by
  intro slots
  induction slots with
  | nil =>
    intro st d r hdb hget hterm hnd
    exact ⟨d, r, hdb, hget, hterm, hnd⟩
  | cons slot rest ih =>
    intro st d r hdb hget hterm hnd
    have hslot : ∃ d1 r1, (execSlotStep env cfg date outputDir false st slot).db = some d1 ∧
        getClip d1 u = some r1 ∧ r1.status.isTerminal = true ∧
        ∀ p, (u, p) ∉ (execSlotStep env cfg date outputDir false st slot).detectCalls := by
      unfold execSlotStep
      rw [if_neg (by simp)]
      cases hdl : env.downloadHour slot.1 slot.2 with
      | error e => exact ⟨d, r, hdb, hget, hterm, hnd⟩
      | ok items =>
        exact execItemsFold_no_detect env cfg date outputDir slot.2 u items
          st d r hdb hget hterm hnd
    obtain ⟨d1, r1, hdb1, hget1, hterm1, hnd1⟩ := hslot
    obtain ⟨d', r', hdb', hget', hterm', hnd'⟩ :=
      ih (execSlotStep env cfg date outputDir false st slot) d1 r1 hdb1 hget1 hterm1 hnd1
    exact ⟨d', r', by simpa using hdb', hget', hterm', by simpa using hnd'⟩

/-- `execute`'s detector trace is exactly its clip loop's detector trace. -/
theorem executeRun_detectCalls (env : PipeEnv) (cfg : PipelineCfg)
    (db0 : Option DBState) (date : String) :
    (executeRun env cfg db0 date false).detectCalls =
      ((filterAvailableSlots env.isPast
          (buildTimeSlots cfg.schedule env.prevDay date)).foldl
        (execSlotStep env cfg date (nightOutputDir cfg date) false)
        { db := db0 }).detectCalls := by
  set st := (filterAvailableSlots env.isPast
      (buildTimeSlots cfg.schedule env.prevDay date)).foldl
    (execSlotStep env cfg date (nightOutputDir cfg date) false)
    { db := db0 } with hst
  simp only [executeRun, Bool.false_eq_true, if_false, ← hst]
  by_cases h1 : st.new_detected_images = []
  · rw [if_pos h1]
    by_cases h2 : env.fileExists (compositeOutPath cfg date)
    · rw [if_pos h2]
      cases hdb : st.db <;> simp [hdb]
    · rw [if_neg h2]
      cases hdb : st.db <;> simp [hdb]
  · rw [if_neg h1]
    cases hcomp : env.compositeImages st.new_detected_images
        (compositeOutPath cfg date)
        (if env.fileExists (compositeOutPath cfg date)
         then some (compositeOutPath cfg date) else none) with
    | ok v => cases hdb : st.db <;> simp [hcomp, hdb]
    | error e => cases hdb : st.db <;> simp [hcomp, hdb]

/-- **C3.**  `execute` is idempotent over terminal clips: (i) a clip whose
stored status is terminal is never handed to the detector during the run;
(ii) the per-clip guard is exactly a bookkeeping upsert that, for a
`detected` clip with a stored detection image, re-counts that image toward
this run's totals; (iii) a run over a night whose every processed clip is
already terminal performs no detection, invokes the compositor zero times,
keeps the existing composite path, and leaves `NightOutput.detection_count`
(and the concat video) unchanged. -/
theorem execute_idempotent_over_terminal (env : PipeEnv) (cfg : PipelineCfg)
    (d0 : DBState) (date : String) :
    (∀ u r, getClip d0 u = some r → r.status.isTerminal = true →
      ∀ p, (u, p) ∉ (executeRun env cfg (some d0) date false).detectCalls) ∧
    (∀ (st : ExecSt) (it : DLItem) (hour : Nat) (outputDir : String)
        (d : DBState) (r' : ClipRow),
      st.db = some d → clipInRange cfg.schedule hour it.minute = true →
      getClip d it.url = some r' → r'.status.isTerminal = true →
      execClipStep env cfg date outputDir hour st it =
        (if r'.status == ClipStatus.detected && r'.detection_image.truthy then
          { st with
            clips_processed := st.clips_processed + 1,
            db := some (upsertClip d
              { clip_url := it.url, date_str := date, hour := hour,
                minute := it.minute, local_path := some it.path,
                status := .downloaded } env.now),
            detected_images := st.detected_images ++ [r'.detection_image.asStr],
            detections_found := st.detections_found + 1 }
        else
          { st with
            clips_processed := st.clips_processed + 1,
            db := some (upsertClip d
              { clip_url := it.url, date_str := date, hour := hour,
                minute := it.minute, local_path := some it.path,
                status := .downloaded } env.now) })) ∧
    (∀ prior : NightRow,
      (∀ q ∈ processedItems env cfg date,
        (match getClip d0 q.2.url with
         | some r => r.status.isTerminal
         | none => false) = true) →
      getOutput d0 date = some prior →
      prior.composite_image = some (compositeOutPath cfg date) →
      env.fileExists (compositeOutPath cfg date) = true →
      prior.detection_count = ((getDetectedClips d0 date).length : Int) →
      (executeRun env cfg (some d0) date false).detectCalls = [] ∧
      (executeRun env cfg (some d0) date false).compositeCalls = [] ∧
      (executeRun env cfg (some d0) date false).result.composite_path =
        prior.composite_image ∧
      ∃ d1 row, (executeRun env cfg (some d0) date false).db = some d1 ∧
        getOutput d1 date = some row ∧
        row.composite_image = prior.composite_image ∧
        row.concat_video = prior.concat_video ∧
        row.detection_count = prior.detection_count) := by
  refine ⟨?_, ?_, ?_⟩
  · intro u r hget hterm p
    obtain ⟨d', r', _, _, _, hnd'⟩ :=
      execSlotsFold_no_detect env cfg date (nightOutputDir cfg date) u
        (filterAvailableSlots env.isPast (buildTimeSlots cfg.schedule env.prevDay date))
        { db := some d0 } d0 r rfl hget hterm (by simp)
    rw [executeRun_detectCalls]
    exact hnd' p
  · intro st it hour outputDir d r' hdb hrange hget hterm
    exact execClipStep_terminal_skip env cfg date outputDir hour st it d r'
      hdb hrange hget hterm
  · intro prior H0 hprior hcomp hexists hcount
    exact executeRun_unchanged_night env cfg d0 date prior H0 hprior hcomp
      hexists hcount

/-- Witness for C3 on the sample scenario: one slot, one already-detected
clip; the detector is not invoked on it, the guard re-counts its stored
image, and the re-run leaves the night row unchanged. -/
theorem execute_idempotent_over_terminal_witness :
    (("u", "p") ∉
      (executeRun sampleExecEnv sampleCfg (some sampleDb) "d" false).detectCalls) ∧
    ((execClipStep sampleExecEnv sampleCfg "d" "o" 1 { db := some sampleDb }
        { url := "u", path := "p", minute := 5 }).detections_found = 1 ∧
     (execClipStep sampleExecEnv sampleCfg "d" "o" 1 { db := some sampleDb }
        { url := "u", path := "p", minute := 5 }).detected_images = ["img"] ∧
     (execClipStep sampleExecEnv sampleCfg "d" "o" 1 { db := some sampleDb }
        { url := "u", path := "p", minute := 5 }).detectCalls = []) ∧
    ((executeRun sampleExecEnv sampleCfg (some sampleDb) "d" false).detectCalls = [] ∧
     (executeRun sampleExecEnv sampleCfg (some sampleDb) "d" false).compositeCalls = [] ∧
     (executeRun sampleExecEnv sampleCfg (some sampleDb) "d" false).result.composite_path =
       sampleNightRow.composite_image) := by
  have t := execute_idempotent_over_terminal sampleExecEnv sampleCfg sampleDb "d"
  refine ⟨?_, ?_, ?_⟩
  · exact t.1 "u" sampleDetectedRow (by decide) (by decide) "p"
  · have heq := t.2.1 { db := some sampleDb } { url := "u", path := "p", minute := 5 }
      1 "o" sampleDb sampleDetectedRow rfl (by decide) (by decide) (by decide)
    rw [heq]
    refine ⟨?_, ?_, ?_⟩ <;> decide
  · have h3 := t.2.2 sampleNightRow (by decide) (by decide) (by decide)
      (by decide) (by decide)
    exact ⟨h3.1, h3.2.1, h3.2.2.1⟩
